import Mathlib

/-!
Shallow embedding of the estimatapp Scrum-Poker domain model
(`src/app/domain` and `src/app/application/use_cases`) and proofs of the
spec claims about it.

Python `float` values are modelled as rationals `ℚ`; Python `dict`s
(which preserve insertion order) are modelled as association lists with
update-in-place/append-at-end semantics; fallible operations return
`Except`.  Arithmetic on `ℚ` inside executable definitions goes through
`mkRat`-based helpers (`qAdd`, `qDivNat`, `qAbs`) because the library's
`Rat.add` etc. are irreducible; bridge lemmas identify them with the
ordinary field operations.
-/

set_option maxRecDepth 100000

namespace Estimatapp

/-! ## Python primitives -/

/-- Model of Python `str.strip()`: drop leading and trailing whitespace. -/
def pyStrip (s : String) : String :=
  ⟨((s.data.dropWhile Char.isWhitespace).reverse.dropWhile Char.isWhitespace).reverse⟩

/-- Model of Python `str.lower()` (ASCII case folding). -/
def pyLower (s : String) : String :=
  ⟨s.data.map Char.toLower⟩

/-- Model of Python `len(s)`: number of characters. -/
def pyLen (s : String) : Nat :=
  s.data.length

/-- Numeric value of a list of decimal digit characters. -/
def digitsToNat (cs : List Char) : Nat :=
  cs.foldl (fun n c => n * 10 + (c.toNat - 48)) 0

/-- Kernel-reducible addition on `ℚ` (the library `Rat.add` is irreducible). -/
def qAdd (a b : ℚ) : ℚ :=
  mkRat (a.num * b.den + b.num * a.den) (a.den * b.den)

/-- Kernel-reducible division of a rational by a natural number. -/
def qDivNat (a : ℚ) (n : Nat) : ℚ :=
  mkRat a.num (a.den * n)

/-- Kernel-reducible absolute value on `ℚ`. -/
def qAbs (a : ℚ) : ℚ :=
  if a.num < 0 then -a else a

/-- Kernel-reducible list sum on `ℚ`, mirroring Python `sum(...)`. -/
def qSum (l : List ℚ) : ℚ :=
  l.foldl qAdd 0

/-- Core of the decimal parser: parses an unsigned decimal literal
(digits, optionally with a fractional part) and applies the sign. -/
def pyFloatCore (neg : Bool) (body : List Char) : Option ℚ :=
  let intPart := body.takeWhile Char.isDigit
  let rest := body.dropWhile Char.isDigit
  let signed : ℚ → ℚ := fun q => if neg then -q else q
  match rest with
  | [] =>
      if intPart.isEmpty then none
      else some (signed (digitsToNat intPart : ℚ))
  | '.' :: fracPart =>
      if fracPart.all Char.isDigit && (!intPart.isEmpty || !fracPart.isEmpty) then
        some (signed (qAdd (digitsToNat intPart : ℚ)
          (qDivNat (digitsToNat fracPart : ℚ) (10 ^ fracPart.length))))
      else none
  | _ => none

/-- Model of Python `float(s)` restricted to plain decimal literals
(optional sign, digits, optional fractional part), returning a rational;
`none` models `float` raising `ValueError`.  Tokens such as "?", "☕" or
t-shirt sizes do not parse. -/
def pyFloat? (s : String) : Option ℚ :=
  match (pyStrip s).data with
  | '-' :: rest => pyFloatCore true rest
  | '+' :: rest => pyFloatCore false rest
  | cs => pyFloatCore false cs

/-- Truthiness of a Python `str | None` value: `None` and `""` are falsy. -/
def pyTruthy : Option String → Bool
  | none => false
  | some s => !(s == "")

/-! ## Python dicts as insertion-ordered association lists -/

/-- Model of `d[k] = v` on a Python dict: update the existing entry in
place, or append a new entry at the end. -/
def dictSet (d : List (String × α)) (k : String) (v : α) : List (String × α) :=
  if d.any (fun p => p.1 == k) then
    d.map (fun p => if p.1 == k then (k, v) else p)
  else d ++ [(k, v)]

/-- Model of `d.get(k, v₀)` on a Python dict. -/
def dictGetD (d : List (String × α)) (k : String) (v₀ : α) : α :=
  match d.find? (fun p => p.1 == k) with
  | some p => p.2
  | none => v₀

/-- Model of `d[k] = d.get(k, 0) + 1` on a Python counter dict. -/
def dictIncr (d : List (String × Nat)) (k : String) : List (String × Nat) :=
  dictSet d k (dictGetD d k 0 + 1)

/-! ## Bridge lemmas for the kernel-reducible arithmetic -/

theorem qAdd_eq (a b : ℚ) : qAdd a b = a + b := by
  rw [qAdd, Rat.mkRat_eq_div]
  push_cast
  conv_rhs => rw [← Rat.num_div_den a, ← Rat.num_div_den b]
  rw [div_add_div _ _ (by positivity : (a.den : ℚ) ≠ 0) (by positivity : (b.den : ℚ) ≠ 0)]
  ring_nf

theorem qDivNat_eq (a : ℚ) (n : Nat) : qDivNat a n = a / n := by
  rcases Nat.eq_zero_or_pos n with h | h
  · subst h
    simp [qDivNat, Rat.mkRat_eq_div]
  · rw [qDivNat, Rat.mkRat_eq_div]
    push_cast
    rw [div_mul_eq_div_div, Rat.num_div_den]

theorem qAbs_eq (a : ℚ) : qAbs a = |a| := by
  rw [qAbs]
  by_cases h : a.num < 0
  · have ha : a < 0 := lt_of_not_ge (fun hge => by have := Rat.num_nonneg.mpr hge; omega)
    rw [if_pos h, abs_of_neg ha]
  · have ha : 0 ≤ a := by rw [← Rat.num_nonneg]; omega
    rw [if_neg h, abs_of_nonneg ha]

theorem qSum_eq (l : List ℚ) : qSum l = l.sum := by
  have key : ∀ (l : List ℚ) (a : ℚ), l.foldl qAdd a = a + l.sum := by
    intro l
    induction l with
    | nil => intro a; simp [List.foldl]
    | cons x xs ih =>
        intro a
        simp only [List.foldl, List.sum_cons, qAdd_eq, ih]
        ring
  rw [qSum, key, zero_add]

/-! ## Domain entities (src/app/domain) -/

/-- Room status, from `app.domain.entities.enums.RoomStatus`. -/
inductive RoomStatus where
  | voting
  | revealed
deriving DecidableEq

/-- Voting mode, from `app.domain.entities.enums.VotingMode`. -/
inductive VotingMode where
  | public
  | anonymous
deriving DecidableEq

/-- Player entity, from `app.domain.entities.player.Player`
(`joined_at` is not modelled; no claim mentions it). -/
structure Player where
  id : String
  name : String
  is_observer : Bool := false
  is_facilitator : Bool := false
  vote : Option String := none
  connected : Bool := true
deriving DecidableEq

/-- Model of `Player.has_voted`: `self.vote is not None`. -/
def Player.has_voted (p : Player) : Bool :=
  p.vote.isSome

/-- StoryHistory entity, from `app.domain.entities.story.StoryHistory`
(`voted_at` is not modelled; no claim mentions it). -/
structure StoryHistory where
  story_name : String
  votes : List (String × String)
  vote_summary : List (String × Nat)
  average : Option ℚ
  rounded_average : Option String
  round_number : Nat := 1
  is_superseded : Bool := false
deriving DecidableEq

/-! ## Voting scales (src/app/domain/value_objects/voting.py) -/

def fibonacciValues : List String :=
  ["0", "1", "2", "3", "5", "8", "13", "21", "34", "55", "89", "?", "☕"]

def modifiedFibonacciValues : List String :=
  ["0", "0.5", "1", "2", "3", "5", "8", "13", "20", "40", "100", "?", "☕"]

def powersOf2Values : List String :=
  ["0", "1", "2", "4", "8", "16", "32", "64", "?", "☕"]

def tShirtValues : List String :=
  ["XXS", "XS", "S", "M", "L", "XL", "XXL", "?", "☕"]

def linearValues : List String :=
  ["0", "1", "2", "3", "4", "5", "6", "7", "8", "9", "10", "?", "☕"]

/-- Model of the `PREDEFINED_SCALES` dict as a lookup function. -/
def PREDEFINED_SCALES (name : String) : Option (List String) :=
  if name == "fibonacci" then some fibonacciValues
  else if name == "modified_fibonacci" then some modifiedFibonacciValues
  else if name == "powers_of_2" then some powersOf2Values
  else if name == "t_shirt" then some tShirtValues
  else if name == "linear" then some linearValues
  else none

/-- VotingScale value object (its `values` tuple as a list). -/
structure VotingScale where
  name : String
  values : List String
deriving DecidableEq

/-- Model of `VotingScale.__post_init__` validation applied to direct
construction: raises (returns `none`) when fewer than `MIN_VALUES = 2`
values are supplied. -/
def VotingScale.mk? (name : String) (values : List String) : Option VotingScale :=
  if values.length < 2 then none else some ⟨name, values⟩

/-- Model of the list comprehension
`[v.strip() for v in values if v and str(v).strip()]`. -/
def cleanValues (values : List String) : List String :=
  (values.filter (fun v => !(v == "") && !(pyStrip v == ""))).map pyStrip

/-- Model of `VotingScale.custom`, including the `__post_init__` check. -/
def VotingScale.custom? (values : List String) : Option VotingScale :=
  VotingScale.mk? "custom" (cleanValues values)

/-- Model of `VotingScale.from_predefined` (falls back to
modified_fibonacci for unknown names; the `__post_init__` check cannot
fail here because every predefined scale has more than 2 values). -/
def VotingScale.from_predefined (name : String) : VotingScale :=
  match PREDEFINED_SCALES name with
  | some vs => ⟨name, vs⟩
  | none => ⟨"modified_fibonacci", modifiedFibonacciValues⟩

/-- The numeric entries of a scale paired with their tokens:
the `numeric_scale` list built by `VotingScale.round_to_scale`. -/
def numericEntries (values : List String) : List (ℚ × String) :=
  values.filterMap (fun item => (pyFloat? item).map (fun q => (q, item)))

/-- Python `min(l, key)` keeps the first element whose key is minimal:
it replaces the current best only on a strictly smaller key. -/
def minByFirst (key : α → ℚ) (h : α) (t : List α) : α :=
  t.foldl (fun best x => if key x < key best then x else best) h

/-- Model of `VotingScale.round_to_scale`. -/
def VotingScale.round_to_scale (vs : VotingScale) (value : ℚ) : Option String :=
  match numericEntries vs.values with
  | [] => none
  | p :: rest => some ((minByFirst (fun x => qAbs (qAdd x.1 (-value))) p rest).2)

/-! ## Room aggregate (src/app/domain/aggregates/room.py) -/

/-- Room aggregate root (`created_at` is not modelled; no claim mentions
it).  `players` models the Python insertion-ordered dict keyed by player
id, as a list in insertion order. -/
structure Room where
  id : String
  name : String
  status : RoomStatus := .voting
  voting_mode : VotingMode := .public
  players : List Player := []
  story_name : String := ""
  history : List StoryHistory := []
  voting_scale : String := "modified_fibonacci"
  custom_scale : List String := []
deriving DecidableEq

/-- Model of `Room.create`. -/
def Room.create (room_id name : String) : Room :=
  { id := room_id, name := name }

/-- Model of `Room.add_player`: `self.players[player.id] = player`. -/
def Room.add_player (r : Room) (p : Player) : Room :=
  { r with players :=
      if r.players.any (fun q => q.id == p.id) then
        r.players.map (fun q => if q.id == p.id then p else q)
      else r.players ++ [p] }

/-- Model of `Room.get_player`: dict lookup by id. -/
def Room.get_player (r : Room) (player_id : String) : Option Player :=
  r.players.find? (fun p => p.id == player_id)

/-- Model of `Room.find_player_by_name`: first case-insensitive name
match in iteration order. -/
def Room.find_player_by_name (r : Room) (name : String) : Option Player :=
  r.players.find? (fun p => pyLower p.name == pyLower name)

/-- Model of `Room.get_active_voters`. -/
def Room.get_active_voters (r : Room) : List Player :=
  r.players.filter (fun p => !p.is_observer && p.connected)

/-- Model of `Room.player_count`. -/
def Room.player_count (r : Room) : Nat :=
  r.players.length

/-- Model of `Room.get_current_scale`. -/
def Room.get_current_scale (r : Room) : List String :=
  if !r.custom_scale.isEmpty then r.custom_scale
  else
    match PREDEFINED_SCALES r.voting_scale with
    | some vs => vs
    | none => modifiedFibonacciValues

/-- Model of `Room.get_voting_scale` (the value object; the
`__post_init__` length check cannot fire on states produced by the use
cases, which enforce at least 2 custom values). -/
def Room.get_voting_scale (r : Room) : VotingScale :=
  if !r.custom_scale.isEmpty then ⟨"custom", cleanValues r.custom_scale⟩
  else VotingScale.from_predefined r.voting_scale

/-- Model of `Room.set_scale`. -/
def Room.set_scale (r : Room) (scale_name : String) : Room :=
  { r with voting_scale := scale_name, custom_scale := [] }

/-- Model of `Room.set_custom_scale`. -/
def Room.set_custom_scale (r : Room) (values : List String) : Room :=
  { r with custom_scale := cleanValues values, voting_scale := "custom" }

/-- Model of `Room.round_to_scale`. -/
def Room.round_to_scale (r : Room) (value : ℚ) : Option String :=
  (r.get_voting_scale).round_to_scale value

/-- Model of `Room.is_valid_vote`. -/
def Room.is_valid_vote (r : Room) (vote_value : String) : Bool :=
  (r.get_current_scale).contains vote_value

/-- Model of `Room.reveal_votes`. -/
def Room.reveal_votes (r : Room) : Room :=
  { r with status := .revealed }

/-- Model of `Room.all_voted`. -/
def Room.all_voted (r : Room) : Bool :=
  let active := r.get_active_voters
  if active.isEmpty then false
  else active.all Player.has_voted

/-- Body of the tally loop shared by `Room.get_vote_summary` and
`Room.reset_votes`:
`if not player.is_observer and player.vote: summary[vote] += 1`. -/
def tallyStep (summary : List (String × Nat)) (p : Player) : List (String × Nat) :=
  match p.vote with
  | some v => if !p.is_observer && !(v == "") then dictIncr summary v else summary
  | none => summary

/-- Model of `Room.get_vote_summary`. -/
def Room.get_vote_summary (r : Room) : List (String × Nat) :=
  if r.status ≠ .revealed then []
  else r.players.foldl tallyStep []

/-- The numeric votes collected by the loop shared by
`Room.get_average_vote` and `Room.reset_votes`: for every non-observer
player with a truthy vote, `float(vote)` when it parses. -/
def numericVotesOf (players : List Player) : List ℚ :=
  players.filterMap
    (fun p =>
      match p.vote with
      | some v => if !p.is_observer && !(v == "") then pyFloat? v else none
      | none => none)

/-- Model of `Room.get_average_vote`. -/
def Room.get_average_vote (r : Room) : Option ℚ :=
  if r.status ≠ .revealed then none
  else
    let numeric_votes := numericVotesOf r.players
    if !numeric_votes.isEmpty then some (qDivNat (qSum numeric_votes) numeric_votes.length)
    else none

/-- Model of `Room.set_story_name`. -/
def Room.set_story_name (r : Room) (name : String) : Room :=
  { r with story_name := name }

/-- Body of the vote-collecting loop in `Room.reset_votes`:
`if not player.is_observer and player.vote: votes[player.name] = player.vote`. -/
def votesStep (votes : List (String × String)) (p : Player) : List (String × String) :=
  match p.vote with
  | some v => if !p.is_observer && !(v == "") then dictSet votes p.name v else votes
  | none => votes

/-- The `votes` dict built by the loop in `Room.reset_votes`:
`votes[player.name] = player.vote` for non-observer players with a
truthy vote, in iteration order. -/
def collectedVotes (players : List Player) : List (String × String) :=
  players.foldl votesStep []

/-- The `vote_summary` counter built by the loop in `Room.reset_votes`
(the same tally as in `Room.get_vote_summary`). -/
def collectedSummary (players : List Player) : List (String × Nat) :=
  players.foldl tallyStep []

/-- Body of the round-number accumulation in `Room.update_or_add_history`:
`round_number = max(round_number, story.round_number + 1)` on a name match. -/
def roundNumStep (story_name : String) (rn : Nat) (s : StoryHistory) : Nat :=
  if s.story_name == story_name then max rn (s.round_number + 1) else rn

/-- In-loop supersession marking of `Room.update_or_add_history`:
`story.is_superseded = True` on a name match. -/
def markSuperseded (story_name : String) (s : StoryHistory) : StoryHistory :=
  if s.story_name == story_name then { s with is_superseded := true } else s

/-- Model of `Room.update_or_add_history`: mark every existing record
with the same story name as superseded, compute the new round number as
`max(1, max(prior round numbers for the name) + 1)`, append a fresh
record. -/
def Room.update_or_add_history (r : Room) (story_name : String)
    (votes : List (String × String)) (vote_summary : List (String × Nat))
    (average : Option ℚ) (rounded_average : Option String) : Room :=
  let round_number := r.history.foldl (roundNumStep story_name) 1
  let marked := r.history.map (markSuperseded story_name)
  { r with history := marked ++
      [{ story_name := story_name, votes := votes, vote_summary := vote_summary,
         average := average, rounded_average := rounded_average,
         round_number := round_number, is_superseded := false }] }

/-- Model of `Room.reset_votes`.  The Python loop fills `votes`,
`vote_summary` and `numeric_votes` in one pass over the players; the
three accumulators are independent, so they are modelled as three folds
over the same iteration with the same guard. -/
def Room.reset_votes (r : Room) : Room :=
  let r' :=
    if !(r.story_name == "") then
      let votes := collectedVotes r.players
      let vote_summary := collectedSummary r.players
      let numeric_votes := numericVotesOf r.players
      if !votes.isEmpty then
        let average : Option ℚ :=
          if !numeric_votes.isEmpty then
            some (qDivNat (qSum numeric_votes) numeric_votes.length)
          else none
        let rounded_average : Option String :=
          match average with
          | some a => r.round_to_scale a
          | none => none
        r.update_or_add_history r.story_name votes vote_summary average rounded_average
      else r
    else r
  { r' with players := r'.players.map (fun p => { p with vote := none }),
            story_name := "", status := .voting }

/-- Body of the summation loop in `Room.get_total_story_points`:
`if not story.is_superseded and story.rounded_average:
  total += float(story.rounded_average)` with `ValueError` suppressed. -/
def totalPointsStep (total : ℚ) (s : StoryHistory) : ℚ :=
  if !s.is_superseded && pyTruthy s.rounded_average then
    match pyFloat? (s.rounded_average.getD "") with
    | some q => qAdd total q
    | none => total
  else total

/-- Model of `Room.get_total_story_points`. -/
def Room.get_total_story_points (r : Room) : ℚ :=
  r.history.foldl totalPointsStep 0

/-- Model of `Room.toggle_voting_mode`. -/
def Room.toggle_voting_mode (r : Room) : Room :=
  if r.voting_mode = .public then { r with voting_mode := .anonymous }
  else { r with voting_mode := .public }

/-! ## Use cases (src/app/application/use_cases)

Each use case is modelled on a resolved room (room lookup failure,
`RoomNotFoundError`, happens before the room is touched and is outside
the per-room state).  The Python use cases mutate the room in place; an
exception raised before any mutation leaves it untouched, which the
model expresses by returning the input room in every error branch,
mirroring where each `raise` sits in the source.  `uuid4` id generation
is modelled by passing the fresh id as an argument. -/

/-- Error taxonomy of the use-case layer. -/
inductive UcError where
  | playerNotFound (player_id : String)
  | unauthorized (msg : String)
  | invalidVote (vote_value : String)
  | invalidScale (msg : String)
  | invalidStoryName
  | invalidPlayerName
  | roomFull
deriving DecidableEq

/-- Result of `JoinRoomUseCase.execute`. -/
structure JoinRoomResult where
  player_id : String
  player_name : String
  is_reconnect : Bool
deriving DecidableEq

/-- Model of `JoinRoomUseCase.execute` on a resolved room. -/
def JoinRoomUseCase.execute (room : Room) (player_name : String)
    (is_observer : Bool) (fresh_id : String) :
    Except UcError JoinRoomResult × Room :=
  let name := pyStrip player_name
  if name == "" then (.error .invalidPlayerName, room)
  else if pyLen name > 50 then (.error .invalidPlayerName, room)
  else
    match room.find_player_by_name name with
    | some existing =>
        let reconnected := room.players.map (fun p =>
          if p.id == existing.id then { p with connected := true, is_observer := is_observer }
          else p)
        (.ok ⟨existing.id, existing.name, true⟩, { room with players := reconnected })
    | none =>
        if room.player_count ≥ 20 then (.error .roomFull, room)
        else
          let is_facilitator := room.player_count == 0
          let player : Player :=
            { id := fresh_id, name := name, is_observer := is_observer,
              is_facilitator := is_facilitator, vote := none, connected := true }
          (.ok ⟨fresh_id, name, false⟩, room.add_player player)

/-- Vote update on the player entity: `player.set_vote(v)` on the player
found by id in the room's dict. -/
def Room.set_player_vote (r : Room) (player_id : String) (v : Option String) : Room :=
  { r with players :=
      r.players.map (fun p => if p.id == player_id then { p with vote := v } else p) }

/-- Model of `VoteUseCase.execute` on a resolved room. -/
def VoteUseCase.execute (room : Room) (player_id : String)
    (vote_value : Option String) : Except UcError (Option String) × Room :=
  match room.get_player player_id with
  | none => (.error (.playerNotFound player_id), room)
  | some _ =>
      match vote_value with
      | none => (.ok none, room.set_player_vote player_id none)
      | some v =>
          if room.is_valid_vote v then (.ok (some v), room.set_player_vote player_id (some v))
          else (.error (.invalidVote v), room)

/-- Model of `RevealVotesUseCase.execute` on a resolved room. -/
def RevealVotesUseCase.execute (room : Room) (player_id : String) :
    Except UcError Unit × Room :=
  match room.get_player player_id with
  | none => (.error (.playerNotFound player_id), room)
  | some player =>
      if !player.is_facilitator then
        (.error (.unauthorized "Solo el facilitador puede revelar los votos"), room)
      else (.ok (), room.reveal_votes)

/-- Model of `ResetVotesUseCase.execute` on a resolved room. -/
def ResetVotesUseCase.execute (room : Room) (player_id : String) :
    Except UcError Unit × Room :=
  match room.get_player player_id with
  | none => (.error (.playerNotFound player_id), room)
  | some player =>
      if !player.is_facilitator then
        (.error (.unauthorized "Solo el facilitador puede iniciar una nueva ronda"), room)
      else (.ok (), room.reset_votes)

/-- Model of `SetStoryNameUseCase.execute` on a resolved room. -/
def SetStoryNameUseCase.execute (room : Room) (story_name : String) :
    Except UcError Unit × Room :=
  let name := pyStrip story_name
  if pyLen name > 200 then (.error .invalidStoryName, room)
  else (.ok (), room.set_story_name name)

/-- Model of `ToggleVotingModeUseCase.execute` on a resolved room. -/
def ToggleVotingModeUseCase.execute (room : Room) (player_id : String) :
    Except UcError VotingMode × Room :=
  match room.get_player player_id with
  | none => (.error (.playerNotFound player_id), room)
  | some player =>
      if !player.is_facilitator then
        (.error (.unauthorized "Solo el facilitador puede cambiar el modo de votación"), room)
      else (.ok (room.toggle_voting_mode).voting_mode, room.toggle_voting_mode)

/-- Model of `ChangeScaleUseCase.execute` on a resolved room. -/
def ChangeScaleUseCase.execute (room : Room) (player_id : String)
    (scale_name : String) : Except UcError Unit × Room :=
  match room.get_player player_id with
  | none => (.error (.playerNotFound player_id), room)
  | some player =>
      if !player.is_facilitator then
        (.error (.unauthorized "Solo el facilitador puede cambiar la escala de votación"), room)
      else (.ok (), room.set_scale scale_name)

/-- Model of `ChangeScaleUseCase.execute_custom` on a resolved room. -/
def ChangeScaleUseCase.execute_custom (room : Room) (player_id : String)
    (values : List String) : Except UcError Unit × Room :=
  match room.get_player player_id with
  | none => (.error (.playerNotFound player_id), room)
  | some player =>
      if !player.is_facilitator then
        (.error (.unauthorized "Solo el facilitador puede establecer una escala personalizada"),
          room)
      else if values.isEmpty then
        (.error (.invalidScale "La escala personalizada no puede estar vacía"), room)
      else
        let clean_values := cleanValues values
        if clean_values.length < 2 then
          (.error (.invalidScale "La escala debe tener al menos 2 valores"), room)
        else (.ok (), room.set_custom_scale clean_values)

/-! ## Reachability

An `Action` is any room-mutating entry point of the application layer:
the use cases above plus the transport-level connect/disconnect flag
updates from the websocket endpoint. -/

/-- One room-mutating operation with its inputs. -/
inductive Action where
  | join (player_name : String) (is_observer : Bool) (fresh_id : String)
  | vote (player_id : String) (vote_value : Option String)
  | reveal (player_id : String)
  | reset (player_id : String)
  | setStory (story_name : String)
  | toggleMode (player_id : String)
  | changeScale (player_id : String) (scale_name : String)
  | setCustomScale (player_id : String) (values : List String)
  | connect (player_id : String)
  | disconnect (player_id : String)
deriving DecidableEq

/-- Model of `player.connected = b` from the websocket endpoint. -/
def Room.set_player_connected (r : Room) (player_id : String) (b : Bool) : Room :=
  { r with players :=
      r.players.map (fun p => if p.id == player_id then { p with connected := b } else p) }

/-- The room state after an action (failed operations return the room
unchanged, matching the in-place Python semantics where every `raise`
precedes any mutation). -/
def Action.apply (a : Action) (r : Room) : Room :=
  match a with
  | .join player_name is_observer fresh_id =>
      (JoinRoomUseCase.execute r player_name is_observer fresh_id).2
  | .vote player_id vote_value => (VoteUseCase.execute r player_id vote_value).2
  | .reveal player_id => (RevealVotesUseCase.execute r player_id).2
  | .reset player_id => (ResetVotesUseCase.execute r player_id).2
  | .setStory story_name => (SetStoryNameUseCase.execute r story_name).2
  | .toggleMode player_id => (ToggleVotingModeUseCase.execute r player_id).2
  | .changeScale player_id scale_name => (ChangeScaleUseCase.execute r player_id scale_name).2
  | .setCustomScale player_id values =>
      (ChangeScaleUseCase.execute_custom r player_id values).2
  | .connect player_id => r.set_player_connected player_id true
  | .disconnect player_id => r.set_player_connected player_id false

/-- Room states reachable from creation through the application layer. -/
inductive Reachable : Room → Prop where
  | create (room_id name : String) : Reachable (Room.create room_id name)
  | step {r : Room} (a : Action) : Reachable r → Reachable (a.apply r)

/-! ## Helper lemmas about the dict model -/

theorem find?_dictSet_self (d : List (String × α)) (k : String) (v : α) :
    (dictSet d k v).find? (fun p => p.1 == k) = some (k, v) := by
  rw [dictSet]
  by_cases h : d.any (fun p => p.1 == k)
  · rw [if_pos h]
    induction d with
    | nil => simp at h
    | cons p t ih =>
        by_cases hp : ((fun p : String × α => p.1 == k) p)
        · rw [List.map_cons, if_pos hp,
            List.find?_cons_of_pos (p := fun p : String × α => p.1 == k)
              (a := (k, v)) _ (by simp)]
        · rw [List.any_cons, Bool.or_eq_true] at h
          have ht := h.resolve_left hp
          rw [List.map_cons, if_neg hp,
            List.find?_cons_of_neg (p := fun p : String × α => p.1 == k) (a := p) _ hp]
          exact ih ht
  · rw [if_neg h]
    rw [List.find?_append]
    have hd : d.find? (fun p => p.1 == k) = none := by
      rw [List.find?_eq_none]
      intro x hx
      simp only [List.any_eq_true, not_exists, not_and] at h
      exact fun hk => h x hx hk
    rw [hd]
    rw [List.find?_cons_of_pos (p := fun p : String × α => p.1 == k)
      (a := (k, v)) _ (by simp)]
    rfl

theorem find?_dictSet_ne (d : List (String × α)) (k k' : String) (v : α)
    (h : k' ≠ k) :
    (dictSet d k v).find? (fun p => p.1 == k') = d.find? (fun p => p.1 == k') := by
  rw [dictSet]
  by_cases hany : d.any (fun p => p.1 == k)
  · rw [if_pos hany]
    clear hany
    induction d with
    | nil => simp
    | cons p t ih =>
        rw [List.map_cons]
        by_cases hp : ((fun p : String × α => p.1 == k) p)
        · have hpk : p.1 = k := by simpa using hp
          rw [if_pos hp,
            List.find?_cons_of_neg (p := fun p : String × α => p.1 == k')
              (a := (k, v)) _ (by simp [Ne.symm h]),
            List.find?_cons_of_neg (p := fun p : String × α => p.1 == k')
              (a := p) _ (by simp [hpk, Ne.symm h])]
          exact ih
        · rw [if_neg hp]
          by_cases hq : ((fun p : String × α => p.1 == k') p)
          · rw [List.find?_cons_of_pos (p := fun p : String × α => p.1 == k') (a := p) _ hq,
              List.find?_cons_of_pos (p := fun p : String × α => p.1 == k') (a := p) _ hq]
          · rw [List.find?_cons_of_neg (p := fun p : String × α => p.1 == k') (a := p) _ hq,
              List.find?_cons_of_neg (p := fun p : String × α => p.1 == k') (a := p) _ hq]
            exact ih
  · rw [if_neg hany, List.find?_append]
    have h1 : List.find? (fun p => p.1 == k') [(k, v)] = none := by
      rw [List.find?_cons_of_neg (p := fun p : String × α => p.1 == k')
        (a := (k, v)) _ (by simp [Ne.symm h])]
      rfl
    rw [h1]
    cases hd : d.find? (fun p => p.1 == k') <;> rfl

theorem dictGetD_dictSet_self (d : List (String × α)) (k : String) (v v₀ : α) :
    dictGetD (dictSet d k v) k v₀ = v := by
  rw [dictGetD, find?_dictSet_self]

theorem dictGetD_dictSet_ne (d : List (String × α)) (k k' : String) (v v₀ : α)
    (h : k' ≠ k) :
    dictGetD (dictSet d k v) k' v₀ = dictGetD d k' v₀ := by
  rw [dictGetD, find?_dictSet_ne d k k' v h, dictGetD]

theorem mem_dictSet (d : List (String × α)) (k : String) (v : α) (x : String × α)
    (hx : x ∈ dictSet d k v) : x ∈ d ∨ x = (k, v) := by
  rw [dictSet] at hx
  by_cases hany : d.any (fun p => p.1 == k)
  · rw [if_pos hany] at hx
    rcases List.mem_map.mp hx with ⟨p, hp, hpe⟩
    by_cases hpk : p.1 == k
    · right
      rw [if_pos hpk] at hpe
      exact hpe.symm
    · left
      rw [if_neg hpk] at hpe
      exact hpe ▸ hp
  · rw [if_neg hany] at hx
    rcases List.mem_append.mp hx with h | h
    · exact Or.inl h
    · simp only [List.mem_singleton] at h
      exact Or.inr h

/-! ## Claim C7: total story points -/

theorem total_points_foldl (l : List StoryHistory) (acc : ℚ) :
    l.foldl totalPointsStep acc
    = acc + ((l.filter (fun s => !s.is_superseded)).filterMap
        (fun s => s.rounded_average.bind pyFloat?)).sum := by
  induction l generalizing acc with
  | nil => simp
  | cons s t ih =>
      rw [List.foldl_cons, List.filter_cons]
      by_cases hsup : s.is_superseded
      · have hstep : totalPointsStep acc s = acc := by
          rw [totalPointsStep]
          simp [hsup]
        rw [hstep, ih]
        simp [hsup]
      · have hsup' : s.is_superseded = false := by simpa using hsup
        cases hra : s.rounded_average with
        | none =>
            have hstep : totalPointsStep acc s = acc := by
              rw [totalPointsStep]
              simp [hra, pyTruthy]
            rw [hstep, ih]
            simp [hsup', hra]
        | some v =>
            by_cases hv : v = ""
            · subst hv
              have hf : pyFloat? "" = none := by decide
              have hstep : totalPointsStep acc s = acc := by
                rw [totalPointsStep]
                simp [hra, pyTruthy]
              rw [hstep, ih]
              simp [hsup', hra, hf]
            · have htr : pyTruthy (some v) = true := by
                simp [pyTruthy, hv]
              cases hf : pyFloat? v with
              | none =>
                  have hstep : totalPointsStep acc s = acc := by
                    rw [totalPointsStep]
                    simp [hsup', hra, htr, hf]
                  rw [hstep, ih]
                  simp [hsup', hra, hf]
              | some q =>
                  have hstep : totalPointsStep acc s = qAdd acc q := by
                    rw [totalPointsStep]
                    simp [hsup', hra, htr, hf]
                  rw [hstep, ih, qAdd_eq]
                  have hfil : (decide (¬s.is_superseded = true)) = true := by
                    simp [hsup']
                  simp only [hsup', Bool.not_false, if_true, List.filterMap_cons, hra,
                    Option.some_bind, hf, List.sum_cons]
                  ring

/-- Claim C7: for every room, `get_total_story_points` equals the sum,
over exactly the non-superseded history records, of their
`rounded_average` parsed as a number; records whose `rounded_average` is
absent or does not parse contribute nothing and cause no error, and
superseded records never contribute. -/
theorem claim_C7 (r : Room) :
    r.get_total_story_points =
      ((r.history.filter (fun s => !s.is_superseded)).filterMap
        (fun s => s.rounded_average.bind pyFloat?)).sum := by
  rw [Room.get_total_story_points, total_points_foldl, zero_add]

/-! ## Demonstration rooms used by witnesses and counterexamples -/

/-- A freshly created room after "Alice" joins (she becomes facilitator
with id "p1"). -/
def roomA : Room := (Action.join "Alice" false "p1").apply (Room.create "r1" "Sprint 1")

/-- `roomA` after "Bob" joins as a non-facilitator voter with id "p2". -/
def roomAB : Room := (Action.join "Bob" false "p2").apply roomA

/-! ## Claim C5: cast vote -/

/-- Claim C5: for every room and existing participant, casting an empty
vote always succeeds and clears the participant's vote; casting a
non-empty token fails with Invalid Vote exactly when the token is not a
member of the current scale values, and otherwise sets the vote; the
outcome does not depend on the room status, and the operation never
changes the status. -/
theorem claim_C5 :
    (∀ (r : Room) (pid : String) (p : Player), r.get_player pid = some p →
      (VoteUseCase.execute r pid none).1 = .ok none ∧
      (∀ p' ∈ (VoteUseCase.execute r pid none).2.players, p'.id = pid → p'.vote = none)) ∧
    (∀ (r : Room) (pid : String) (p : Player) (v : String), r.get_player pid = some p →
      ((∃ e, (VoteUseCase.execute r pid (some v)).1 = .error e) ↔ v ∉ r.get_current_scale) ∧
      ((VoteUseCase.execute r pid (some v)).1 = .error (.invalidVote v) ↔
        v ∉ r.get_current_scale) ∧
      (v ∈ r.get_current_scale →
        (VoteUseCase.execute r pid (some v)).1 = .ok (some v) ∧
        ∀ p' ∈ (VoteUseCase.execute r pid (some v)).2.players, p'.id = pid →
          p'.vote = some v)) ∧
    (∀ (r : Room) (pid : String) (vv : Option String) (s : RoomStatus),
      (VoteUseCase.execute { r with status := s } pid vv).1 =
        (VoteUseCase.execute r pid vv).1) ∧
    (∀ (r : Room) (pid : String) (vv : Option String),
      ((VoteUseCase.execute r pid vv).2).status = r.status) := by
  have hset : ∀ (r : Room) (pid : String) (vv : Option String),
      ∀ p' ∈ (r.set_player_vote pid vv).players, p'.id = pid → p'.vote = vv := by
    intro r pid vv p' hp' hid
    rw [Room.set_player_vote] at hp'
    rcases List.mem_map.mp hp' with ⟨q, _, hqe⟩
    by_cases hq : (q.id == pid)
    · rw [if_pos hq] at hqe
      rw [← hqe]
    · rw [if_neg hq] at hqe
      subst hqe
      exact absurd (by simp [hid]) hq
  have hvalid : ∀ (r : Room) (v : String), r.is_valid_vote v = true ↔ v ∈ r.get_current_scale := by
    intro r v
    rw [Room.is_valid_vote, List.contains_eq_any_beq]
    simp
  refine ⟨?_, ?_, ?_, ?_⟩
  · intro r pid p hp
    constructor
    · rw [VoteUseCase.execute, hp]
    · rw [VoteUseCase.execute, hp]
      exact hset r pid none
  · intro r pid p v hp
    refine ⟨?_, ?_, ?_⟩
    · constructor
      · rintro ⟨e, he⟩
        rw [VoteUseCase.execute, hp] at he
        by_cases hiv : r.is_valid_vote v
        · rw [if_pos hiv] at he
          exact absurd he (by simp)
        · rw [← hvalid]
          simpa using hiv
      · intro hmem
        refine ⟨.invalidVote v, ?_⟩
        rw [VoteUseCase.execute, hp,
          if_neg (by rw [← hvalid r v] at hmem; simpa using hmem)]
    · constructor
      · intro he
        rw [VoteUseCase.execute, hp] at he
        by_cases hiv : r.is_valid_vote v
        · rw [if_pos hiv] at he
          exact absurd he (by simp)
        · rw [← hvalid]
          simpa using hiv
      · intro hmem
        rw [VoteUseCase.execute, hp,
          if_neg (by rw [← hvalid r v] at hmem; simpa using hmem)]
    · intro hmem
      have hiv : r.is_valid_vote v = true := (hvalid r v).mpr hmem
      constructor
      · rw [VoteUseCase.execute, hp, if_pos hiv]
      · rw [VoteUseCase.execute, hp, if_pos hiv]
        exact hset r pid (some v)
  · intro r pid vv s
    have hgp : ({ r with status := s } : Room).get_player pid = r.get_player pid := rfl
    have hvv : ({ r with status := s } : Room).is_valid_vote = r.is_valid_vote := rfl
    rw [VoteUseCase.execute.eq_def, VoteUseCase.execute.eq_def, hgp, hvv]
    cases r.get_player pid with
    | none => rfl
    | some p =>
        cases vv with
        | none => rfl
        | some v =>
            by_cases hiv : r.is_valid_vote v = true
            · simp only [if_pos hiv]
            · simp only [if_neg hiv]
  · intro r pid vv
    rw [VoteUseCase.execute.eq_def]
    cases hgp : r.get_player pid with
    | none => rfl
    | some p =>
        cases vv with
        | none => rfl
        | some v =>
            by_cases hiv : r.is_valid_vote v = true
            · simp only [if_pos hiv]
              rfl
            · simp only [if_neg hiv]

/-- Witness for C5 at a concrete room: Bob ("p2") clears his vote, a
vote of "5" (a modified-fibonacci member) succeeds, and a vote of "7"
(not a member) fails. -/
theorem claim_C5_witness :
    (VoteUseCase.execute roomAB "p2" none).1 = .ok none ∧
    (VoteUseCase.execute roomAB "p2" (some "5")).1 = .ok (some "5") ∧
    (VoteUseCase.execute roomAB "p2" (some "7")).1 = .error (.invalidVote "7") := by
  refine ⟨?_, ?_, ?_⟩
  · exact (claim_C5.1 roomAB "p2" (Player.mk "p2" "Bob" false false none true) (by decide)).1
  · exact ((claim_C5.2.1 roomAB "p2" (Player.mk "p2" "Bob" false false none true) "5"
      (by decide)).2.2 (by decide)).1
  · exact (claim_C5.2.1 roomAB "p2" (Player.mk "p2" "Bob" false false none true) "7"
      (by decide)).2.1.mpr (by decide)

/-! ## Claim C6: failed operations do not mutate the room -/

theorem join_err_or_ok (r : Room) (pn : String) (obs : Bool) (fid : String) :
    (JoinRoomUseCase.execute r pn obs fid).2 = r ∨
    ∃ a, (JoinRoomUseCase.execute r pn obs fid).1 = .ok a := by
  rw [JoinRoomUseCase.execute]
  split
  · left; rfl
  · split
    · left; rfl
    · split
      · right; exact ⟨_, rfl⟩
      · split
        · left; rfl
        · right; exact ⟨_, rfl⟩

theorem vote_err_or_ok (r : Room) (pid : String) (vv : Option String) :
    (VoteUseCase.execute r pid vv).2 = r ∨
    ∃ a, (VoteUseCase.execute r pid vv).1 = .ok a := by
  rw [VoteUseCase.execute.eq_def]
  split
  · left; rfl
  · split
    · right; exact ⟨_, rfl⟩
    · split
      · right; exact ⟨_, rfl⟩
      · left; rfl

theorem reveal_err_or_ok (r : Room) (pid : String) :
    (RevealVotesUseCase.execute r pid).2 = r ∨
    ∃ a, (RevealVotesUseCase.execute r pid).1 = .ok a := by
  rw [RevealVotesUseCase.execute.eq_def]
  split
  · left; rfl
  · split
    · left; rfl
    · right; exact ⟨_, rfl⟩

theorem reset_err_or_ok (r : Room) (pid : String) :
    (ResetVotesUseCase.execute r pid).2 = r ∨
    ∃ a, (ResetVotesUseCase.execute r pid).1 = .ok a := by
  rw [ResetVotesUseCase.execute.eq_def]
  split
  · left; rfl
  · split
    · left; rfl
    · right; exact ⟨_, rfl⟩

theorem set_story_err_or_ok (r : Room) (sn : String) :
    (SetStoryNameUseCase.execute r sn).2 = r ∨
    ∃ a, (SetStoryNameUseCase.execute r sn).1 = .ok a := by
  rw [SetStoryNameUseCase.execute]
  split
  · left; rfl
  · right; exact ⟨_, rfl⟩

theorem toggle_err_or_ok (r : Room) (pid : String) :
    (ToggleVotingModeUseCase.execute r pid).2 = r ∨
    ∃ a, (ToggleVotingModeUseCase.execute r pid).1 = .ok a := by
  rw [ToggleVotingModeUseCase.execute.eq_def]
  split
  · left; rfl
  · split
    · left; rfl
    · right; exact ⟨_, rfl⟩

theorem change_scale_err_or_ok (r : Room) (pid : String) (sn : String) :
    (ChangeScaleUseCase.execute r pid sn).2 = r ∨
    ∃ a, (ChangeScaleUseCase.execute r pid sn).1 = .ok a := by
  rw [ChangeScaleUseCase.execute.eq_def]
  split
  · left; rfl
  · split
    · left; rfl
    · right; exact ⟨_, rfl⟩

theorem custom_scale_err_or_ok (r : Room) (pid : String) (vs : List String) :
    (ChangeScaleUseCase.execute_custom r pid vs).2 = r ∨
    ∃ a, (ChangeScaleUseCase.execute_custom r pid vs).1 = .ok a := by
  rw [ChangeScaleUseCase.execute_custom.eq_def]
  split
  · left; rfl
  · split
    · left; rfl
    · split
      · left; rfl
      · show ((let clean_values := cleanValues vs; _ : Except UcError Unit × Room)).2 = r ∨ _
        simp only []
        split
        · left; rfl
        · right; exact ⟨_, rfl⟩

/-- Claim C6: every modelled operation that fails (returns an error)
leaves the room state exactly as it was; and each privileged operation
— reveal, reset, toggle voting mode, change scale, set custom scale —
attempted by a participant who is not a facilitator fails Unauthorized
and changes nothing. -/
theorem claim_C6 :
    (∀ (r : Room) (pn : String) (obs : Bool) (fid : String) (e : UcError),
      (JoinRoomUseCase.execute r pn obs fid).1 = .error e →
      (JoinRoomUseCase.execute r pn obs fid).2 = r) ∧
    (∀ (r : Room) (pid : String) (vv : Option String) (e : UcError),
      (VoteUseCase.execute r pid vv).1 = .error e →
      (VoteUseCase.execute r pid vv).2 = r) ∧
    (∀ (r : Room) (pid : String) (e : UcError),
      (RevealVotesUseCase.execute r pid).1 = .error e →
      (RevealVotesUseCase.execute r pid).2 = r) ∧
    (∀ (r : Room) (pid : String) (e : UcError),
      (ResetVotesUseCase.execute r pid).1 = .error e →
      (ResetVotesUseCase.execute r pid).2 = r) ∧
    (∀ (r : Room) (sn : String) (e : UcError),
      (SetStoryNameUseCase.execute r sn).1 = .error e →
      (SetStoryNameUseCase.execute r sn).2 = r) ∧
    (∀ (r : Room) (pid : String) (e : UcError),
      (ToggleVotingModeUseCase.execute r pid).1 = .error e →
      (ToggleVotingModeUseCase.execute r pid).2 = r) ∧
    (∀ (r : Room) (pid sn : String) (e : UcError),
      (ChangeScaleUseCase.execute r pid sn).1 = .error e →
      (ChangeScaleUseCase.execute r pid sn).2 = r) ∧
    (∀ (r : Room) (pid : String) (vs : List String) (e : UcError),
      (ChangeScaleUseCase.execute_custom r pid vs).1 = .error e →
      (ChangeScaleUseCase.execute_custom r pid vs).2 = r) ∧
    (∀ (r : Room) (pid : String) (p : Player), r.get_player pid = some p →
      p.is_facilitator = false →
      (RevealVotesUseCase.execute r pid).1 =
        .error (.unauthorized "Solo el facilitador puede revelar los votos") ∧
      (RevealVotesUseCase.execute r pid).2 = r) ∧
    (∀ (r : Room) (pid : String) (p : Player), r.get_player pid = some p →
      p.is_facilitator = false →
      (ResetVotesUseCase.execute r pid).1 =
        .error (.unauthorized "Solo el facilitador puede iniciar una nueva ronda") ∧
      (ResetVotesUseCase.execute r pid).2 = r) ∧
    (∀ (r : Room) (pid : String) (p : Player), r.get_player pid = some p →
      p.is_facilitator = false →
      (ToggleVotingModeUseCase.execute r pid).1 =
        .error (.unauthorized "Solo el facilitador puede cambiar el modo de votación") ∧
      (ToggleVotingModeUseCase.execute r pid).2 = r) ∧
    (∀ (r : Room) (pid sn : String) (p : Player), r.get_player pid = some p →
      p.is_facilitator = false →
      (ChangeScaleUseCase.execute r pid sn).1 =
        .error (.unauthorized "Solo el facilitador puede cambiar la escala de votación") ∧
      (ChangeScaleUseCase.execute r pid sn).2 = r) ∧
    (∀ (r : Room) (pid : String) (vs : List String) (p : Player),
      r.get_player pid = some p → p.is_facilitator = false →
      (ChangeScaleUseCase.execute_custom r pid vs).1 =
        .error (.unauthorized "Solo el facilitador puede establecer una escala personalizada") ∧
      (ChangeScaleUseCase.execute_custom r pid vs).2 = r) := by
  refine ⟨?_, ?_, ?_, ?_, ?_, ?_, ?_, ?_, ?_, ?_, ?_, ?_, ?_⟩
  · intro r pn obs fid e h
    rcases join_err_or_ok r pn obs fid with h2 | ⟨a, ha⟩
    · exact h2
    · rw [ha] at h; exact absurd h (by simp)
  · intro r pid vv e h
    rcases vote_err_or_ok r pid vv with h2 | ⟨a, ha⟩
    · exact h2
    · rw [ha] at h; exact absurd h (by simp)
  · intro r pid e h
    rcases reveal_err_or_ok r pid with h2 | ⟨a, ha⟩
    · exact h2
    · rw [ha] at h; exact absurd h (by simp)
  · intro r pid e h
    rcases reset_err_or_ok r pid with h2 | ⟨a, ha⟩
    · exact h2
    · rw [ha] at h; exact absurd h (by simp)
  · intro r sn e h
    rcases set_story_err_or_ok r sn with h2 | ⟨a, ha⟩
    · exact h2
    · rw [ha] at h; exact absurd h (by simp)
  · intro r pid e h
    rcases toggle_err_or_ok r pid with h2 | ⟨a, ha⟩
    · exact h2
    · rw [ha] at h; exact absurd h (by simp)
  · intro r pid sn e h
    rcases change_scale_err_or_ok r pid sn with h2 | ⟨a, ha⟩
    · exact h2
    · rw [ha] at h; exact absurd h (by simp)
  · intro r pid vs e h
    rcases custom_scale_err_or_ok r pid vs with h2 | ⟨a, ha⟩
    · exact h2
    · rw [ha] at h; exact absurd h (by simp)
  · intro r pid p hgp hf
    rw [RevealVotesUseCase.execute.eq_def, hgp]
    simp [hf]
  · intro r pid p hgp hf
    rw [ResetVotesUseCase.execute.eq_def, hgp]
    simp [hf]
  · intro r pid p hgp hf
    rw [ToggleVotingModeUseCase.execute.eq_def, hgp]
    simp [hf]
  · intro r pid sn p hgp hf
    rw [ChangeScaleUseCase.execute.eq_def, hgp]
    simp [hf]
  · intro r pid vs p hgp hf
    rw [ChangeScaleUseCase.execute_custom.eq_def, hgp]
    simp [hf]

/-- Witness for C6 at a concrete room: Bob, not the facilitator,
attempts reveal, reset, toggle mode, change scale and set a custom
scale; each fails Unauthorized and leaves the room unchanged. -/
theorem claim_C6_witness :
    ((RevealVotesUseCase.execute roomAB "p2").1 =
      .error (.unauthorized "Solo el facilitador puede revelar los votos") ∧
    (RevealVotesUseCase.execute roomAB "p2").2 = roomAB) ∧
    ((ResetVotesUseCase.execute roomAB "p2").1 =
      .error (.unauthorized "Solo el facilitador puede iniciar una nueva ronda") ∧
    (ResetVotesUseCase.execute roomAB "p2").2 = roomAB) ∧
    ((ToggleVotingModeUseCase.execute roomAB "p2").1 =
      .error (.unauthorized "Solo el facilitador puede cambiar el modo de votación") ∧
    (ToggleVotingModeUseCase.execute roomAB "p2").2 = roomAB) ∧
    ((ChangeScaleUseCase.execute roomAB "p2" "linear").1 =
      .error (.unauthorized "Solo el facilitador puede cambiar la escala de votación") ∧
    (ChangeScaleUseCase.execute roomAB "p2" "linear").2 = roomAB) ∧
    ((ChangeScaleUseCase.execute_custom roomAB "p2" ["1", "2"]).1 =
      .error (.unauthorized "Solo el facilitador puede establecer una escala personalizada") ∧
    (ChangeScaleUseCase.execute_custom roomAB "p2" ["1", "2"]).2 = roomAB) := by
  refine ⟨?_, ?_, ?_, ?_, ?_⟩
  · exact claim_C6.2.2.2.2.2.2.2.2.1 roomAB "p2"
      (Player.mk "p2" "Bob" false false none true) (by decide) (by decide)
  · exact claim_C6.2.2.2.2.2.2.2.2.2.1 roomAB "p2"
      (Player.mk "p2" "Bob" false false none true) (by decide) (by decide)
  · exact claim_C6.2.2.2.2.2.2.2.2.2.2.1 roomAB "p2"
      (Player.mk "p2" "Bob" false false none true) (by decide) (by decide)
  · exact claim_C6.2.2.2.2.2.2.2.2.2.2.2.1 roomAB "p2" "linear"
      (Player.mk "p2" "Bob" false false none true) (by decide) (by decide)
  · exact claim_C6.2.2.2.2.2.2.2.2.2.2.2.2 roomAB "p2" ["1", "2"]
      (Player.mk "p2" "Bob" false false none true) (by decide) (by decide)

/-! ## Claim C4: join is reconnect-by-name -/

/-- Name-based search is unaffected by a per-player update that
preserves names. -/
theorem find_by_name_map (l : List Player) (name : String) (f : Player → Player)
    (hf : ∀ p, (f p).name = p.name) :
    (l.map f).find? (fun p => pyLower p.name == pyLower name) =
      (l.find? (fun p => pyLower p.name == pyLower name)).map f := by
  rw [List.find?_map]
  have : ((fun p : Player => pyLower p.name == pyLower name) ∘ f) =
      (fun p : Player => pyLower p.name == pyLower name) := by
    funext q
    simp [Function.comp, hf q]
  rw [this]

/-- Claim C4: joining a room that already has a participant with the
same display name (case-insensitively) reconnects instead of creating:
it returns the existing participant's id, marks them connected, updates
their observer flag and leaves the participant count unchanged, with no
room-capacity condition; consequently joining twice with the same name
yields the same participant id both times and the second join never
changes the participant count. -/
theorem claim_C4 :
    (∀ (r : Room) (pn : String) (obs : Bool) (fid : String) (p : Player),
      pyStrip pn ≠ "" → ¬ pyLen (pyStrip pn) > 50 →
      r.find_player_by_name (pyStrip pn) = some p →
      (JoinRoomUseCase.execute r pn obs fid).1 = .ok ⟨p.id, p.name, true⟩ ∧
      (JoinRoomUseCase.execute r pn obs fid).2.player_count = r.player_count ∧
      (∀ p' ∈ (JoinRoomUseCase.execute r pn obs fid).2.players,
        p'.id = p.id → p'.connected = true ∧ p'.is_observer = obs)) ∧
    (∀ (r : Room) (pn : String) (obs obs2 : Bool) (fid fid2 : String)
      (res1 : JoinRoomResult),
      (∀ q ∈ r.players, q.id ≠ fid) →
      (JoinRoomUseCase.execute r pn obs fid).1 = .ok res1 →
      ∃ res2,
        (JoinRoomUseCase.execute (JoinRoomUseCase.execute r pn obs fid).2 pn obs2 fid2).1 =
          .ok res2 ∧
        res2.player_id = res1.player_id ∧
        (JoinRoomUseCase.execute
            (JoinRoomUseCase.execute r pn obs fid).2 pn obs2 fid2).2.player_count =
          (JoinRoomUseCase.execute r pn obs fid).2.player_count) := by
  have hrec : ∀ (r : Room) (pn : String) (obs : Bool) (fid : String) (p : Player),
      (pyStrip pn == "") = false → ¬ pyLen (pyStrip pn) > 50 →
      r.find_player_by_name (pyStrip pn) = some p →
      (JoinRoomUseCase.execute r pn obs fid).1 = .ok ⟨p.id, p.name, true⟩ ∧
      (JoinRoomUseCase.execute r pn obs fid).2.players =
        r.players.map (fun q =>
          if q.id == p.id then { q with connected := true, is_observer := obs } else q) := by
    intro r pn obs fid p h1 h2 hfind
    constructor
    · rw [JoinRoomUseCase.execute]
      simp only [h1, Bool.false_eq_true, if_false, if_neg h2, hfind]
    · rw [JoinRoomUseCase.execute]
      simp only [h1, Bool.false_eq_true, if_false, if_neg h2, hfind]
  constructor
  · intro r pn obs fid p h1 h2 hfind
    have h1' : (pyStrip pn == "") = false := by simpa using h1
    obtain ⟨hok, hpl⟩ := hrec r pn obs fid p h1' h2 hfind
    refine ⟨hok, ?_, ?_⟩
    · rw [Room.player_count, Room.player_count, hpl, List.length_map]
    · intro p' hp' hid
      rw [hpl] at hp'
      rcases List.mem_map.mp hp' with ⟨q, _, hqe⟩
      by_cases hq : (q.id == p.id)
      · rw [if_pos hq] at hqe
        rw [← hqe]
        exact ⟨rfl, rfl⟩
      · rw [if_neg hq] at hqe
        subst hqe
        exact absurd (by simp [hid]) hq
  · intro r pn obs obs2 fid fid2 res1 hfresh hok
    by_cases h1 : (pyStrip pn == "")
    · rw [JoinRoomUseCase.execute] at hok
      simp only [h1, if_true] at hok
      exact absurd hok (by simp)
    · have h1' : (pyStrip pn == "") = false := by simpa using h1
      by_cases h2 : pyLen (pyStrip pn) > 50
      · rw [JoinRoomUseCase.execute] at hok
        simp only [h1', Bool.false_eq_true, if_false, if_pos h2] at hok
        exact absurd hok (by simp)
      · cases hfind : r.find_player_by_name (pyStrip pn) with
        | some p =>
            -- first join reconnects; the room keeps the same players up to
            -- a name-preserving per-player update
            obtain ⟨hok1, hpl⟩ := hrec r pn obs fid p h1' h2 hfind
            rw [hok1] at hok
            have hres1 : res1 = ⟨p.id, p.name, true⟩ := by
              cases hok
              rfl
            have hfind2 : (JoinRoomUseCase.execute r pn obs fid).2.find_player_by_name
                (pyStrip pn) = some (if p.id == p.id then
                  { p with connected := true, is_observer := obs } else p) := by
              rw [Room.find_player_by_name, hpl,
                find_by_name_map _ _ _ (fun q => by by_cases hq : (q.id == p.id) <;>
                  simp [hq])]
              rw [Room.find_player_by_name] at hfind
              rw [hfind]
              rfl
            obtain ⟨hok2, hpl2⟩ := hrec (JoinRoomUseCase.execute r pn obs fid).2 pn obs2 fid2 _
              h1' h2 hfind2
            refine ⟨_, hok2, ?_, ?_⟩
            · rw [hres1]
              simp
            · rw [Room.player_count, Room.player_count, hpl2, List.length_map]
        | none =>
            -- first join creates a fresh participant with id fid
            have hok1 : (JoinRoomUseCase.execute r pn obs fid).1 = .ok res1 := hok
            rw [JoinRoomUseCase.execute] at hok1
            simp only [h1', Bool.false_eq_true, if_false, if_neg h2, hfind] at hok1
            by_cases hcap : r.player_count ≥ 20
            · rw [if_pos hcap] at hok1
              exact absurd hok1 (by simp)
            · rw [if_neg hcap] at hok1
              have hres1 : res1.player_id = fid := by
                cases hok1
                rfl
              have hpl : (JoinRoomUseCase.execute r pn obs fid).2.players =
                  r.players ++
                    [Player.mk fid (pyStrip pn) obs (r.player_count == 0) none true] := by
                rw [JoinRoomUseCase.execute]
                simp only [h1', Bool.false_eq_true, if_false, if_neg h2, hfind,
                  if_neg hcap]
                rw [Room.add_player]
                have hnone : r.players.any (fun q => q.id == fid) = false := by
                  rw [List.any_eq_false]
                  intro q hq
                  simpa using hfresh q hq
                simp only [hnone, Bool.false_eq_true, if_false]
              have hfind2 : (JoinRoomUseCase.execute r pn obs fid).2.find_player_by_name
                  (pyStrip pn) =
                    some (Player.mk fid (pyStrip pn) obs (r.player_count == 0) none true) := by
                rw [Room.find_player_by_name, hpl, List.find?_append]
                rw [Room.find_player_by_name] at hfind
                rw [hfind]
                rw [List.find?_cons_of_pos (p := fun p : Player =>
                  pyLower p.name == pyLower (pyStrip pn)) _ (by simp)]
                rfl
              obtain ⟨hok2, hpl2⟩ := hrec (JoinRoomUseCase.execute r pn obs fid).2 pn obs2
                fid2 _ h1' h2 hfind2
              refine ⟨_, hok2, ?_, ?_⟩
              · rw [hres1]
              · rw [Room.player_count, Room.player_count, hpl2, List.length_map]

/-- Witness for C4: in `roomAB`, joining again as "alice" (different
case, as an observer) reconnects to participant "p1" without growing the
room; a fresh double join of "Carol" returns the same id twice. -/
theorem claim_C4_witness :
    ((JoinRoomUseCase.execute roomAB "alice" true "p9").1 =
      .ok ⟨"p1", "Alice", true⟩ ∧
    (JoinRoomUseCase.execute roomAB "alice" true "p9").2.player_count =
      roomAB.player_count) ∧
    ∃ res2,
      (JoinRoomUseCase.execute
          (JoinRoomUseCase.execute roomAB "Carol" false "p3").2 "Carol" false "p4").1 =
        .ok res2 ∧
      res2.player_id = "p3" := by
  constructor
  · have h := claim_C4.1 roomAB "alice" true "p9"
      (Player.mk "p1" "Alice" false true none true) (by decide) (by decide) (by decide)
    exact ⟨h.1, h.2.1⟩
  · have h := claim_C4.2 roomAB "Carol" false false "p3" "p4" ⟨"p3", "Carol", false⟩
      (by decide) (by rfl)
    rcases h with ⟨res2, hok2, hid, _⟩
    exact ⟨res2, hok2, hid⟩

/-! ## Claim C9: scale construction validation -/

/-- Counterexample to C9 as stated: constructing a custom scale from the
duplicate tokens ["1", "1"] succeeds (the `__post_init__` check only
counts values), so constructed scales need not have unique tokens and
duplicate-token construction does not fail. -/
theorem claim_C9_counterexample :
    VotingScale.custom? ["1", "1"] = some ⟨"custom", ["1", "1"]⟩ ∧
    ¬ (["1", "1"] : List String).Nodup := by
  constructor
  · decide
  · decide

/-- Every predefined scale has at least 2 values. -/
theorem predefined_len (name : String) (vs : List String)
    (h : PREDEFINED_SCALES name = some vs) : 2 ≤ vs.length := by
  rw [PREDEFINED_SCALES] at h
  by_cases h1 : (name == "fibonacci") = true
  · rw [if_pos h1] at h; cases h; decide
  · rw [if_neg h1] at h
    by_cases h2 : (name == "modified_fibonacci") = true
    · rw [if_pos h2] at h; cases h; decide
    · rw [if_neg h2] at h
      by_cases h3 : (name == "powers_of_2") = true
      · rw [if_pos h3] at h; cases h; decide
      · rw [if_neg h3] at h
        by_cases h4 : (name == "t_shirt") = true
        · rw [if_pos h4] at h; cases h; decide
        · rw [if_neg h4] at h
          by_cases h5 : (name == "linear") = true
          · rw [if_pos h5] at h; cases h; decide
          · rw [if_neg h5] at h; exact absurd h (by simp)

/-- Claim C9 (amended): a scale construction fails exactly when fewer
than 2 values remain (for custom scales, after trimming and dropping
blanks); a successful custom construction keeps the cleaned values in
order (duplicates included), and every predefined scale has at least 2
values.  Uniqueness of tokens is not enforced anywhere. -/
theorem claim_C9 :
    (∀ (name : String) (values : List String),
      (VotingScale.mk? name values).isSome = true ↔ 2 ≤ values.length) ∧
    (∀ values : List String,
      (VotingScale.custom? values).isSome = true ↔ 2 ≤ (cleanValues values).length) ∧
    (∀ (values : List String) (vs : VotingScale), VotingScale.custom? values = some vs →
      vs.name = "custom" ∧ vs.values = cleanValues values) ∧
    (∀ name : String, 2 ≤ (VotingScale.from_predefined name).values.length) := by
  have hmk : ∀ (name : String) (values : List String),
      (VotingScale.mk? name values).isSome = true ↔ 2 ≤ values.length := by
    intro name values
    rw [VotingScale.mk?]
    by_cases h : values.length < 2
    · rw [if_pos h]
      simp
      omega
    · rw [if_neg h]
      simp
      omega
  refine ⟨hmk, ?_, ?_, ?_⟩
  · intro values
    rw [VotingScale.custom?]
    exact hmk "custom" (cleanValues values)
  · intro values vs h
    rw [VotingScale.custom?, VotingScale.mk?] at h
    by_cases hlen : (cleanValues values).length < 2
    · rw [if_pos hlen] at h
      exact absurd h (by simp)
    · rw [if_neg hlen] at h
      cases h
      exact ⟨rfl, rfl⟩
  · intro name
    rw [VotingScale.from_predefined.eq_def]
    cases hps : PREDEFINED_SCALES name with
    | none => exact (by decide : 2 ≤ modifiedFibonacciValues.length)
    | some vs => exact predefined_len name vs hps

/-- Witness for C9: a custom scale from [" a ", "", "b"] keeps the two
cleaned tokens, and a one-token construction fails. -/
theorem claim_C9_witness :
    ((VotingScale.mk? "x" ["1"]).isSome = true ↔ 2 ≤ (["1"] : List String).length) ∧
    ((VotingScale.custom? [" a ", "", "b"]).isSome = true ↔
      2 ≤ (cleanValues [" a ", "", "b"]).length) ∧
    ((VotingScale.custom? [" a ", "", "b"] = some ⟨"custom", ["a", "b"]⟩) →
      (VotingScale.mk "custom" ["a", "b"]).name = "custom" ∧
      (VotingScale.mk "custom" ["a", "b"]).values = cleanValues [" a ", "", "b"]) ∧
    2 ≤ (VotingScale.from_predefined "t_shirt").values.length := by
  refine ⟨claim_C9.1 "x" ["1"], claim_C9.2.1 [" a ", "", "b"], ?_, claim_C9.2.2.2 "t_shirt"⟩
  intro h
  exact claim_C9.2.2.1 [" a ", "", "b"] ⟨"custom", ["a", "b"]⟩ h

/-! ## Claim C3: rounding to the nearest numeric token -/

/-- `minByFirst` (Python `min` with a key) returns the first element of
`h :: t` attaining the minimal key: everything strictly before it has a
strictly larger key, and nothing anywhere has a smaller one. -/
theorem minByFirst_spec (key : α → ℚ) (h : α) (t : List α) :
    ∃ pre suf, h :: t = pre ++ minByFirst key h t :: suf ∧
      (∀ x ∈ pre, key (minByFirst key h t) < key x) ∧
      (∀ x ∈ h :: t, key (minByFirst key h t) ≤ key x) := by
  induction t generalizing h with
  | nil =>
      refine ⟨[], [], rfl, by simp, ?_⟩
      intro x hx
      rw [List.mem_singleton] at hx
      subst hx
      exact le_refl _
  | cons x t' ih =>
      have hfold : minByFirst key h (x :: t') =
          minByFirst key (if key x < key h then x else h) t' := rfl
      by_cases hlt : key x < key h
      · rw [hfold, if_pos hlt]
        obtain ⟨pre, suf, he, hpre, hmin⟩ := ih x
        have hrx : key (minByFirst key x t') ≤ key x := hmin x (List.mem_cons_self x t')
        refine ⟨h :: pre, suf, ?_, ?_, ?_⟩
        · rw [List.cons_append, ← he]
        · intro y hy
          rcases List.mem_cons.mp hy with hy | hy
          · subst hy
            exact lt_of_le_of_lt hrx hlt
          · exact hpre y hy
        · intro y hy
          rcases List.mem_cons.mp hy with hy | hy
          · subst hy
            exact le_of_lt (lt_of_le_of_lt hrx hlt)
          · exact hmin y hy
      · rw [hfold, if_neg hlt]
        obtain ⟨pre, suf, he, hpre, hmin⟩ := ih h
        have hxk : key h ≤ key x := le_of_not_gt hlt
        cases pre with
        | nil =>
            rw [List.nil_append] at he
            have hrh : minByFirst key h t' = h := by
              have := he
              injection this with h1 _
              exact h1.symm
            refine ⟨[], x :: t', ?_, by simp, ?_⟩
            · rw [hrh]
              rfl
            · intro y hy
              rcases List.mem_cons.mp hy with hy | hy
              · subst hy
                rw [hrh]
              · rcases List.mem_cons.mp hy with hy | hy
                · subst hy
                  rw [hrh]
                  exact hxk
                · exact hmin y (List.mem_cons_of_mem h hy)
        | cons p0 pre' =>
            rw [List.cons_append] at he
            have hp0 : p0 = h := by
              injection he with h1 _
              exact h1.symm
            have ht' : t' = pre' ++ minByFirst key h t' :: suf := by
              injection he
            have hrh : key (minByFirst key h t') < key h := by
              have := hpre p0 (List.mem_cons_self p0 pre')
              rwa [hp0] at this
            refine ⟨h :: x :: pre', suf, ?_, ?_, ?_⟩
            · rw [List.cons_append, List.cons_append, ← ht']
            · intro y hy
              rcases List.mem_cons.mp hy with hy | hy
              · subst hy
                exact hrh
              · rcases List.mem_cons.mp hy with hy | hy
                · subst hy
                  exact lt_of_lt_of_le hrh hxk
                · exact hpre y (List.mem_cons_of_mem p0 hy)
            · intro y hy
              rcases List.mem_cons.mp hy with hy | hy
              · subst hy
                exact le_of_lt hrh
              · rcases List.mem_cons.mp hy with hy | hy
                · subst hy
                  exact le_of_lt (lt_of_lt_of_le hrh hxk)
                · exact hmin y (List.mem_cons_of_mem h hy)

/-- The key minimised by `VotingScale.round_to_scale` is the absolute
distance to the input value. -/
theorem round_key_eq (x : ℚ) (p : ℚ × String) :
    qAbs (qAdd p.1 (-x)) = |p.1 - x| := by
  rw [qAdd_eq, qAbs_eq, sub_eq_add_neg]

/-- Claim C3: when `round_to_scale` returns a token, that token is a
numeric entry of the scale at minimal absolute distance from the input,
and it is the first such entry in declared order (every numeric entry
strictly before it is strictly farther); on a scale with no numeric
token the function returns no result; concretely, the scale ["1","3"]
rounds 2 to "1". -/
theorem claim_C3 :
    (∀ (vs : VotingScale) (x : ℚ) (t : String),
      vs.round_to_scale x = some t →
      ∃ (q : ℚ) (pre suf : List (ℚ × String)),
        numericEntries vs.values = pre ++ (q, t) :: suf ∧
        (∀ p ∈ pre, |q - x| < |p.1 - x|) ∧
        (∀ p ∈ numericEntries vs.values, |q - x| ≤ |p.1 - x|)) ∧
    (∀ (vs : VotingScale) (x : ℚ),
      (∀ item ∈ vs.values, pyFloat? item = none) → vs.round_to_scale x = none) ∧
    (∀ (vs : VotingScale) (x : ℚ),
      numericEntries vs.values ≠ [] → (vs.round_to_scale x).isSome = true) ∧
    VotingScale.round_to_scale ⟨"custom", ["1", "3"]⟩ 2 = some "1" := by
  refine ⟨?_, ?_, ?_, by decide⟩
  · intro vs x t h
    rw [VotingScale.round_to_scale.eq_def] at h
    cases hne : numericEntries vs.values with
    | nil =>
        rw [hne] at h
        exact absurd h (by simp)
    | cons p rest =>
        rw [hne] at h
        simp only [Option.some.injEq] at h
        obtain ⟨pre, suf, he, hpre, hmin⟩ :=
          minByFirst_spec (fun z => qAbs (qAdd z.1 (-x))) p rest
        set r := minByFirst (fun z => qAbs (qAdd z.1 (-x))) p rest with hr
        refine ⟨r.1, pre, suf, ?_, ?_, ?_⟩
        · rw [← h, Prod.mk.eta]
          exact he
        · intro p' hp'
          have h2 := hpre p' hp'
          rwa [round_key_eq x r, round_key_eq x p'] at h2
        · intro p' hp'
          have h2 := hmin p' hp'
          rwa [round_key_eq x r, round_key_eq x p'] at h2
  · intro vs x hall
    rw [VotingScale.round_to_scale.eq_def]
    have hne : numericEntries vs.values = [] := by
      rw [numericEntries, List.filterMap_eq_nil_iff]
      intro a ha
      rw [hall a ha]
      rfl
    rw [hne]
  · intro vs x hne
    rw [VotingScale.round_to_scale.eq_def]
    cases h : numericEntries vs.values with
    | nil => exact absurd h hne
    | cons p rest => rfl

/-- Witness for C3: the modified-fibonacci scale rounds 13/2 to "5",
which is the first numeric entry at minimal distance, and an all-symbol
scale rounds nothing. -/
theorem claim_C3_witness :
    (∃ (q : ℚ) (pre suf : List (ℚ × String)),
      numericEntries (VotingScale.mk "custom" ["1", "3"]).values = pre ++ (q, "1") :: suf ∧
      (∀ p ∈ pre, |q - 2| < |p.1 - 2|) ∧
      (∀ p ∈ numericEntries (VotingScale.mk "custom" ["1", "3"]).values,
        |q - 2| ≤ |p.1 - 2|)) ∧
    (VotingScale.mk "symbols" ["?", "☕"]).round_to_scale 7 = none := by
  constructor
  · exact claim_C3.1 ⟨"custom", ["1", "3"]⟩ 2 "1" (by decide)
  · exact claim_C3.2.1 ⟨"symbols", ["?", "☕"]⟩ 7 (by decide)

/-! ## Claim C10: the connected flag does not affect vote aggregation -/

/-- Arbitrary rewrite of every player's connected flag (covers any
pattern of disconnections). -/
def setConnected (r : Room) (f : Player → Bool) : Room :=
  { r with players := r.players.map (fun p => { p with connected := f p }) }

theorem collectedVotes_setConnected (players : List Player) (f : Player → Bool) :
    collectedVotes (players.map (fun p => { p with connected := f p })) =
      collectedVotes players := by
  rw [collectedVotes, collectedVotes, List.foldl_map]
  rfl

theorem collectedSummary_setConnected (players : List Player) (f : Player → Bool) :
    collectedSummary (players.map (fun p => { p with connected := f p })) =
      collectedSummary players := by
  rw [collectedSummary, collectedSummary, List.foldl_map]
  rfl

theorem numericVotesOf_setConnected (players : List Player) (f : Player → Bool) :
    numericVotesOf (players.map (fun p => { p with connected := f p })) =
      numericVotesOf players := by
  rw [numericVotesOf, numericVotesOf, List.filterMap_map]
  rfl

/-- Claim C10: a participant's connected flag has no effect on vote
aggregation — vote summary, average, and all three of the accumulations
archived by reset (votes by name, tally, numeric votes) are unchanged
under any rewrite of connected flags, and so is the history produced by
reset; only `get_active_voters` (and hence `all_voted`) filters on
connectedness. -/
theorem claim_C10 (r : Room) (f : Player → Bool) :
    (setConnected r f).get_vote_summary = r.get_vote_summary ∧
    (setConnected r f).get_average_vote = r.get_average_vote ∧
    collectedVotes (setConnected r f).players = collectedVotes r.players ∧
    collectedSummary (setConnected r f).players = collectedSummary r.players ∧
    numericVotesOf (setConnected r f).players = numericVotesOf r.players ∧
    ((setConnected r f).reset_votes).history = (r.reset_votes).history ∧
    (setConnected r f).get_active_voters =
      (r.players.filter (fun p => !p.is_observer && f p)).map
        (fun p => { p with connected := f p }) := by
  have hcv : collectedVotes (setConnected r f).players = collectedVotes r.players :=
    collectedVotes_setConnected r.players f
  have hcs : collectedSummary (setConnected r f).players = collectedSummary r.players :=
    collectedSummary_setConnected r.players f
  have hnv : numericVotesOf (setConnected r f).players = numericVotesOf r.players :=
    numericVotesOf_setConnected r.players f
  refine ⟨?_, ?_, hcv, hcs, hnv, ?_, ?_⟩
  · rw [Room.get_vote_summary, Room.get_vote_summary]
    have hst : (setConnected r f).status = r.status := rfl
    rw [hst]
    by_cases hs : r.status ≠ .revealed
    · rw [if_pos hs, if_pos hs]
    · rw [if_neg hs, if_neg hs]
      exact hcs
  · rw [Room.get_average_vote, Room.get_average_vote]
    have hst : (setConnected r f).status = r.status := rfl
    rw [hst, hnv]
  · rw [Room.reset_votes, Room.reset_votes]
    have hst : (setConnected r f).story_name = r.story_name := rfl
    have hrts : (setConnected r f).round_to_scale = r.round_to_scale := rfl
    have hhist : ∀ sn vs sm av ra,
        ((setConnected r f).update_or_add_history sn vs sm av ra).history =
          (r.update_or_add_history sn vs sm av ra).history := by
      intro sn vs sm av ra
      rw [Room.update_or_add_history, Room.update_or_add_history]
      rfl
    simp only [hst, hrts, hcv, hcs, hnv]
    by_cases hs : (r.story_name == "")
    · simp only [hs, Bool.not_true, Bool.false_eq_true, if_false]
      rfl
    · have hs' : (r.story_name == "") = false := by simpa using hs
      simp only [hs', Bool.not_false, if_true]
      by_cases hv : (collectedVotes r.players).isEmpty
      · simp only [hv, Bool.not_true, Bool.false_eq_true, if_false]
        rfl
      · have hv' : (collectedVotes r.players).isEmpty = false := by simpa using hv
        simp only [hv', Bool.not_false, if_true, hhist]
  · rw [Room.get_active_voters, setConnected]
    rw [List.filter_map]
    rfl

/-! ## Claim C1: reset archives the round and clears the state -/

/-- A player whose vote is collected by the reset loop: a non-observer
with a truthy vote. -/
def isVoter (p : Player) : Bool :=
  !p.is_observer && pyTruthy p.vote

theorem dictSet_ne_nil (d : List (String × α)) (k : String) (v : α) :
    dictSet d k v ≠ [] := by
  rw [dictSet]
  by_cases h : d.any (fun p => p.1 == k)
  · rw [if_pos h]
    intro he
    rw [List.map_eq_nil_iff] at he
    subst he
    simp at h
  · rw [if_neg h]
    simp

theorem mem_dictSet_self (d : List (String × α)) (k : String) (v : α) :
    (k, v) ∈ dictSet d k v := by
  rw [dictSet]
  by_cases h : d.any (fun p => p.1 == k)
  · rw [if_pos h]
    rw [List.any_eq_true] at h
    rcases h with ⟨q, hq, hqk⟩
    exact List.mem_map.mpr ⟨q, hq, if_pos hqk⟩
  · rw [if_neg h]
    exact List.mem_append_right d (List.mem_singleton.mpr rfl)

theorem key_mem_dictSet (d : List (String × α)) (k : String) (v : α) (n : String)
    (h : ∃ w, (n, w) ∈ d) : ∃ w, (n, w) ∈ dictSet d k v := by
  rcases h with ⟨w, hw⟩
  rw [dictSet]
  by_cases hany : d.any (fun p => p.1 == k)
  · rw [if_pos hany]
    by_cases hnk : ((n, w).1 == k)
    · have hn : n = k := by simpa using hnk
      subst hn
      exact ⟨v, List.mem_map.mpr ⟨(n, w), hw, if_pos hnk⟩⟩
    · exact ⟨w, List.mem_map.mpr ⟨(n, w), hw, if_neg hnk⟩⟩
  · rw [if_neg hany]
    exact ⟨w, List.mem_append_left _ hw⟩

theorem key_mem_votesStep (d : List (String × String)) (p : Player) (n : String)
    (h : ∃ w, (n, w) ∈ d) : ∃ w, (n, w) ∈ votesStep d p := by
  cases hv : p.vote with
  | none =>
      simp only [votesStep, hv]
      exact h
  | some v =>
      simp only [votesStep, hv]
      by_cases hg : (!p.is_observer && !(v == ""))
      · rw [if_pos hg]
        exact key_mem_dictSet d p.name v n h
      · rw [if_neg hg]
        exact h

theorem key_mem_votes_foldl (ps : List Player) (d : List (String × String)) (n : String)
    (h : ∃ w, (n, w) ∈ d) : ∃ w, (n, w) ∈ ps.foldl votesStep d := by
  induction ps generalizing d with
  | nil => exact h
  | cons p t ih => exact ih (votesStep d p) (key_mem_votesStep d p n h)

theorem voter_key_mem_foldl (ps : List Player) (p : Player)
    (hobs : p.is_observer = false) (v : String) (hv : p.vote = some v) (hne : v ≠ "") :
    ∀ acc, p ∈ ps → ∃ w, (p.name, w) ∈ ps.foldl votesStep acc := by
  induction ps with
  | nil =>
      intro acc hp
      simp at hp
  | cons q t ih =>
      intro acc hp
      rw [List.foldl_cons]
      rcases List.mem_cons.mp hp with hq | hq
      · subst hq
        apply key_mem_votes_foldl
        simp only [votesStep, hv]
        rw [if_pos (by simp [hobs, hne] : (!p.is_observer && !(v == "")) = true)]
        exact ⟨v, mem_dictSet_self _ _ _⟩
      · exact ih (votesStep acc q) hq

/-- Every non-observer player with a truthy vote contributes its name as
a key of the collected votes dict. -/
theorem collectedVotes_key_mem (ps : List Player) (p : Player) (hp : p ∈ ps)
    (hobs : p.is_observer = false) (v : String) (hv : p.vote = some v) (hne : v ≠ "") :
    ∃ w, (p.name, w) ∈ collectedVotes ps := by
  rw [collectedVotes]
  exact voter_key_mem_foldl ps p hobs v hv hne [] hp

/-- Every entry of the collected votes dict comes from a non-observer
player with that name and that truthy vote. -/
theorem collectedVotes_mem (ps : List Player) (acc : List (String × String))
    (x : String × String) (hx : x ∈ ps.foldl votesStep acc) :
    x ∈ acc ∨ ∃ p ∈ ps, p.is_observer = false ∧ p.name = x.1 ∧
      p.vote = some x.2 ∧ x.2 ≠ "" := by
  induction ps generalizing acc with
  | nil => exact Or.inl hx
  | cons p t ih =>
      rw [List.foldl_cons] at hx
      rcases ih (votesStep acc p) hx with hacc | ⟨q, hq, hqo, hqn, hqv, hqne⟩
      · cases hv : p.vote with
        | none =>
            simp only [votesStep, hv] at hacc
            exact Or.inl hacc
        | some v =>
            simp only [votesStep, hv] at hacc
            by_cases hg : (!p.is_observer && !(v == ""))
            · rw [if_pos hg] at hacc
              rcases mem_dictSet acc p.name v x hacc with hin | hxe
              · exact Or.inl hin
              · simp only [Bool.and_eq_true, Bool.not_eq_true'] at hg
                refine Or.inr ⟨p, List.mem_cons_self p t, hg.1, ?_, ?_, ?_⟩
                · rw [hxe]
                · rw [hxe, hv]
                · rw [hxe]
                  intro he
                  have he2 : v = "" := he
                  rw [he2] at hg
                  simp at hg
            · rw [if_neg hg] at hacc
              exact Or.inl hacc
      · exact Or.inr ⟨q, List.mem_cons_of_mem p hq, hqo, hqn, hqv, hqne⟩

theorem dictGetD_dictIncr (d : List (String × Nat)) (k tok : String) :
    dictGetD (dictIncr d k) tok 0 =
      dictGetD d tok 0 + (if tok = k then 1 else 0) := by
  rw [dictIncr]
  by_cases h : tok = k
  · subst h
    rw [dictGetD_dictSet_self, if_pos rfl]
  · rw [dictGetD_dictSet_ne _ _ _ _ _ h, if_neg h]
    omega

theorem tallyStep_count (d : List (String × Nat)) (p : Player) (tok : String) :
    dictGetD (tallyStep d p) tok 0 = dictGetD d tok 0 +
      (if (!p.is_observer && (p.vote == some tok) && !(tok == "")) then 1 else 0) := by
  cases hv : p.vote with
  | none =>
      simp only [tallyStep, hv]
      rw [if_neg (by simp)]
      omega
  | some v =>
      simp only [tallyStep, hv]
      by_cases hg : (!p.is_observer && !(v == ""))
      · rw [if_pos hg, dictGetD_dictIncr]
        simp only [Bool.and_eq_true, Bool.not_eq_true'] at hg
        by_cases hvt : tok = v
        · subst hvt
          rw [if_pos rfl, if_pos (by simp [hg.1, hg.2])]
        · rw [if_neg hvt, if_neg (by simp [beq_iff_eq, Ne.symm hvt])]
      · rw [if_neg hg]
        have hc : (!p.is_observer && (some v == some tok) && !(tok == "")) = false := by
          by_cases hobs : p.is_observer
          · simp [hobs]
          · have hobs' : p.is_observer = false := by simpa using hobs
            by_cases hvt : v = tok
            · subst hvt
              have hve : (v == "") = true := by
                cases hbe : (v == "")
                · exact absurd (by simp [hobs', hbe] :
                    (!p.is_observer && !(v == "")) = true) hg
                · rfl
              have hv0 : v = "" := by simpa using hve
              subst hv0
              simp
            · simp [beq_iff_eq, hvt]
        rw [hc]
        simp

theorem tally_foldl_count (ps : List Player) (d : List (String × Nat)) (tok : String) :
    dictGetD (ps.foldl tallyStep d) tok 0 = dictGetD d tok 0 +
      ps.countP (fun p => !p.is_observer && (p.vote == some tok) && !(tok == "")) := by
  induction ps generalizing d with
  | nil => simp
  | cons p t ih =>
      rw [List.foldl_cons, ih, tallyStep_count, List.countP_cons]
      by_cases hp : (!p.is_observer && (p.vote == some tok) && !(tok == "")) = true
      · simp only [if_pos hp]
        omega
      · simp only [if_neg hp]
        omega

/-- The tally produced by the reset loop counts, for each token, exactly
the non-observer players currently holding that (truthy) vote. -/
theorem collectedSummary_count (ps : List Player) (tok : String) :
    dictGetD (collectedSummary ps) tok 0 =
      ps.countP (fun p => !p.is_observer && (p.vote == some tok) && !(tok == "")) := by
  rw [collectedSummary, tally_foldl_count]
  have h0 : dictGetD ([] : List (String × Nat)) tok 0 = 0 := rfl
  rw [h0]
  omega

theorem votesStep_nil_iff (acc : List (String × String)) (p : Player) :
    votesStep acc p = acc ∨ (isVoter p = true ∧ votesStep acc p ≠ []) := by
  cases hv : p.vote with
  | none =>
      left
      simp only [votesStep, hv]
  | some v =>
      by_cases hg : (!p.is_observer && !(v == ""))
      · right
        constructor
        · simp only [isVoter, pyTruthy, hv]
          simp only [Bool.and_eq_true, Bool.not_eq_true'] at hg
          simp [hg.1, hg.2]
        · simp only [votesStep, hv, if_pos hg]
          exact dictSet_ne_nil _ _ _
      · left
        simp only [votesStep, hv, if_neg hg]

theorem votes_foldl_ne_nil (ps : List Player) (acc : List (String × String))
    (hacc : acc ≠ []) : ps.foldl votesStep acc ≠ [] := by
  induction ps generalizing acc with
  | nil => exact hacc
  | cons p t ih =>
      rw [List.foldl_cons]
      rcases votesStep_nil_iff acc p with he | ⟨_, hne⟩
      · rw [he]
        exact ih acc hacc
      · exact ih _ hne

/-- On a non-voter the reset loop's vote-collecting step is a no-op; on
a voter it produces a nonempty dict. -/
theorem votesStep_cases (acc : List (String × String)) (p : Player) :
    (isVoter p = false ∧ votesStep acc p = acc) ∨
    (isVoter p = true ∧ votesStep acc p ≠ []) := by
  cases hv : p.vote with
  | none =>
      left
      constructor
      · simp [isVoter, pyTruthy, hv]
      · simp only [votesStep, hv]
  | some v =>
      have hgEq : isVoter p = (!p.is_observer && !(v == "")) := by
        simp [isVoter, pyTruthy, hv]
      by_cases hg : (!p.is_observer && !(v == ""))
      · right
        refine ⟨by rw [hgEq, hg], ?_⟩
        simp only [votesStep, hv, if_pos hg]
        exact dictSet_ne_nil _ _ _
      · left
        refine ⟨by rw [hgEq]; simpa using hg, ?_⟩
        simp only [votesStep, hv, if_neg hg]

/-- The reset loop collects no votes exactly when no player is a
non-observer with a truthy vote. -/
theorem collectedVotes_nil_iff (ps : List Player) :
    collectedVotes ps = [] ↔ ∀ p ∈ ps, isVoter p = false := by
  rw [collectedVotes]
  have gen : ∀ (ps : List Player) (acc : List (String × String)),
      (ps.foldl votesStep acc = [] ↔ acc = [] ∧ ∀ p ∈ ps, isVoter p = false) := by
    intro ps
    induction ps with
    | nil => simp
    | cons p t ih =>
        intro acc
        rw [List.foldl_cons, ih]
        rcases votesStep_cases acc p with ⟨hnv, he⟩ | ⟨hvt, hne⟩
        · rw [he]
          constructor
          · rintro ⟨h1, h2⟩
            refine ⟨h1, ?_⟩
            intro q hq
            rcases List.mem_cons.mp hq with hq | hq
            · subst hq
              exact hnv
            · exact h2 q hq
          · rintro ⟨h1, h2⟩
            exact ⟨h1, fun q hq => h2 q (List.mem_cons_of_mem p hq)⟩
        · constructor
          · rintro ⟨h1, _⟩
            exact absurd h1 hne
          · rintro ⟨_, h2⟩
            rw [h2 p (List.mem_cons_self p t)] at hvt
            exact absurd hvt (by simp)
  rw [gen ps []]
  simp

/-- Claim C1: when the room has a non-empty item name and at least one
non-observer vote, `reset_votes` appends exactly one new history record
for that item — its votes are exactly the non-observer voters' truthy
votes keyed by display name, its tally counts those votes per token, its
average is the mean of the parseable-numeric vote tokens (absent when
there are none), and its rounded average is `round_to_scale` of that
average when it exists; when no non-observer vote exists or no item name
is set, the history is left completely unchanged.  In every case all
votes are cleared, the item name is emptied and the status returns to
Voting. -/
theorem claim_C1 (r : Room) :
    (r.story_name ≠ "" → collectedVotes r.players ≠ [] →
      ∃ rec : StoryHistory,
        (r.reset_votes).history = r.history.map (markSuperseded r.story_name) ++ [rec] ∧
        rec.story_name = r.story_name ∧
        rec.is_superseded = false ∧
        rec.votes = collectedVotes r.players ∧
        (∀ x ∈ rec.votes, ∃ p ∈ r.players, p.is_observer = false ∧ p.name = x.1 ∧
          p.vote = some x.2 ∧ x.2 ≠ "") ∧
        (∀ p ∈ r.players, p.is_observer = false → ∀ v, p.vote = some v → v ≠ "" →
          ∃ w, (p.name, w) ∈ rec.votes) ∧
        (∀ tok, dictGetD rec.vote_summary tok 0 =
          r.players.countP
            (fun p => !p.is_observer && (p.vote == some tok) && !(tok == ""))) ∧
        rec.average = (if numericVotesOf r.players = [] then none
          else some ((numericVotesOf r.players).sum /
            ((numericVotesOf r.players).length : ℚ))) ∧
        rec.rounded_average = rec.average.bind (fun a => r.round_to_scale a)) ∧
    ((r.story_name = "" ∨ collectedVotes r.players = []) →
      (r.reset_votes).history = r.history) ∧
    ((∀ p ∈ r.players, isVoter p = false) → (r.reset_votes).history = r.history) ∧
    (∀ p ∈ (r.reset_votes).players, p.vote = none) ∧
    (r.reset_votes).story_name = "" ∧
    (r.reset_votes).status = .voting := by
  have hunchanged : (r.story_name = "" ∨ collectedVotes r.players = []) →
      (r.reset_votes).history = r.history := by
    intro h
    rcases h with hs | hv
    · have hs' : (r.story_name == "") = true := by simpa using hs
      simp only [Room.reset_votes, hs', Bool.not_true, Bool.false_eq_true, if_false]
    · have hv' : (collectedVotes r.players).isEmpty = true := by
        rw [hv]
        rfl
      by_cases hs : (r.story_name == "")
      · simp only [Room.reset_votes, hs, Bool.not_true, Bool.false_eq_true, if_false]
      · have hs' : (r.story_name == "") = false := by simpa using hs
        simp only [Room.reset_votes, hs', Bool.not_false, if_true, hv', Bool.not_true,
          Bool.false_eq_true, if_false]
  refine ⟨?_, hunchanged, ?_, ?_, rfl, rfl⟩
  · intro hs hv
    have hs' : (r.story_name == "") = false := by simpa using hs
    have hv' : (collectedVotes r.players).isEmpty = false := by
      cases he : (collectedVotes r.players).isEmpty
      · rfl
      · rw [List.isEmpty_iff] at he
        exact absurd he hv
    simp only [Room.reset_votes, hs', Bool.not_false, if_true, hv', Bool.false_eq_true,
      Room.update_or_add_history]
    refine ⟨_, rfl, rfl, rfl, rfl, ?_, ?_, ?_, ?_, ?_⟩
    · intro x hx
      rcases collectedVotes_mem r.players [] x hx with hnil | h
      · simp at hnil
      · exact h
    · intro p hp hobs v hvv hne
      exact collectedVotes_key_mem r.players p hp hobs v hvv hne
    · intro tok
      exact collectedSummary_count r.players tok
    · by_cases hnv : numericVotesOf r.players = []
      · rw [if_pos hnv, hnv]
        rfl
      · have h1 : (numericVotesOf r.players).isEmpty = false := by
          cases he : (numericVotesOf r.players).isEmpty
          · rfl
          · rw [List.isEmpty_iff] at he
            exact absurd he hnv
        rw [if_neg hnv, h1]
        simp only [Bool.not_false, if_true]
        rw [qSum_eq, qDivNat_eq]
    · by_cases hnv : (numericVotesOf r.players).isEmpty
      · simp only [hnv, Bool.not_true, Bool.false_eq_true, if_false]
        rfl
      · have h1 : (numericVotesOf r.players).isEmpty = false := by simpa using hnv
        simp only [h1, Bool.not_false, if_true]
        rfl
  · intro hall
    exact hunchanged (Or.inr ((collectedVotes_nil_iff r.players).mpr hall))
  · intro p hp
    have hpl : (r.reset_votes).players =
        (if !(r.story_name == "") then
          (if !(collectedVotes r.players).isEmpty then
            r.update_or_add_history r.story_name (collectedVotes r.players)
              (collectedSummary r.players)
              (if !(numericVotesOf r.players).isEmpty then
                some (qDivNat (qSum (numericVotesOf r.players))
                  (numericVotesOf r.players).length)
              else none)
              (match (if !(numericVotesOf r.players).isEmpty then
                  some (qDivNat (qSum (numericVotesOf r.players))
                    (numericVotesOf r.players).length)
                else none) with
                | some a => r.round_to_scale a
                | none => none)
          else r)
        else r).players.map (fun p => { p with vote := none }) := rfl
    rw [hpl] at hp
    rcases List.mem_map.mp hp with ⟨q, _, hqe⟩
    rw [← hqe]

/-- `roomAB` after Alice votes "5", Bob votes "8" and the story name is
set to "US-1". -/
def roomC1 : Room :=
  (Action.setStory "US-1").apply
    ((Action.vote "p2" (some "8")).apply
      ((Action.vote "p1" (some "5")).apply roomAB))

/-- Witness for C1: in a room where Alice voted "5", Bob voted "8" and
the story is "US-1", reset archives one record (average 13/2, rounded to
"5" on the modified-fibonacci scale) and clears the votes. -/
theorem claim_C1_witness :
    ((roomC1.story_name ≠ "" ∧ collectedVotes roomC1.players ≠ []) ∧
    ∃ rec : StoryHistory,
      (roomC1.reset_votes).history =
        roomC1.history.map (markSuperseded roomC1.story_name) ++ [rec] ∧
      rec.story_name = roomC1.story_name ∧
      rec.is_superseded = false ∧
      rec.votes = collectedVotes roomC1.players) ∧
    (∀ p ∈ (roomC1.reset_votes).players, p.vote = none) := by
  refine ⟨⟨⟨by decide, by decide⟩, ?_⟩, (claim_C1 roomC1).2.2.2.1⟩
  obtain ⟨rec, h1, h2, h3, h4, _⟩ := (claim_C1 roomC1).1 (by decide) (by decide)
  exact ⟨rec, h1, h2, h3, h4⟩

/-! ## Claim C2: history supersession and round-number invariants -/

/-- At most one non-superseded record per item name. -/
def histActiveUnique (h : List StoryHistory) : Prop :=
  h.Pairwise (fun a b => a.story_name = b.story_name →
    a.is_superseded = true ∨ b.is_superseded = true)

/-- Round numbers are non-decreasing per item name in history order. -/
def histRoundMono (h : List StoryHistory) : Prop :=
  h.Pairwise (fun a b => a.story_name = b.story_name →
    a.round_number ≤ b.round_number)

/-- Largest round number recorded for an item name (0 when none). -/
def maxRoundFor (sn : String) (h : List StoryHistory) : Nat :=
  h.foldl (fun m s => if s.story_name == sn then max m s.round_number else m) 0

theorem markSuperseded_name (sn : String) (s : StoryHistory) :
    (markSuperseded sn s).story_name = s.story_name := by
  rw [markSuperseded]
  by_cases h : (s.story_name == sn)
  · rw [if_pos h]
  · rw [if_neg h]

theorem markSuperseded_round (sn : String) (s : StoryHistory) :
    (markSuperseded sn s).round_number = s.round_number := by
  rw [markSuperseded]
  by_cases h : (s.story_name == sn)
  · rw [if_pos h]
  · rw [if_neg h]

theorem markSuperseded_hit (sn : String) (s : StoryHistory)
    (h : (markSuperseded sn s).story_name = sn) :
    (markSuperseded sn s).is_superseded = true := by
  rw [markSuperseded_name] at h
  rw [markSuperseded, if_pos (by simpa using h)]

theorem roundNum_foldl_ge_init (sn : String) (l : List StoryHistory) (init : Nat) :
    init ≤ l.foldl (roundNumStep sn) init := by
  induction l generalizing init with
  | nil => exact le_refl _
  | cons q t ih =>
      rw [List.foldl_cons]
      refine le_trans ?_ (ih (roundNumStep sn init q))
      rw [roundNumStep]
      by_cases h : (q.story_name == sn)
      · rw [if_pos h]
        exact le_max_left _ _
      · rw [if_neg h]

theorem roundNum_foldl_ge (sn : String) (l : List StoryHistory) (o : StoryHistory)
    (ho : o ∈ l) (hsn : o.story_name = sn) (init : Nat) :
    o.round_number + 1 ≤ l.foldl (roundNumStep sn) init := by
  induction l generalizing init with
  | nil => simp at ho
  | cons q t ih =>
      rw [List.foldl_cons]
      rcases List.mem_cons.mp ho with hq | hq
      · subst hq
        refine le_trans ?_ (roundNum_foldl_ge_init sn t _)
        rw [roundNumStep, if_pos (by simpa using hsn)]
        exact le_max_right _ _
      · exact ih hq _

theorem roundNum_foldl_shift (sn : String) (l : List StoryHistory) :
    ∀ a : Nat, l.foldl (roundNumStep sn) (a + 1) =
      (l.foldl (fun m s => if s.story_name == sn then max m s.round_number else m) a) + 1 := by
  induction l with
  | nil => intro a; rfl
  | cons q t ih =>
      intro a
      rw [List.foldl_cons, List.foldl_cons, roundNumStep]
      by_cases h : (q.story_name == sn)
      · rw [if_pos h, if_pos h]
        have hmax : max (a + 1) (q.round_number + 1) = (max a q.round_number) + 1 := by
          omega
        rw [hmax, ih]
      · rw [if_neg h, if_neg h, ih]

/-- `update_or_add_history` preserves both history invariants. -/
theorem update_preserves_inv (r : Room) (sn : String) (vs : List (String × String))
    (sm : List (String × Nat)) (av : Option ℚ) (ra : Option String)
    (h1 : histActiveUnique r.history) (h2 : histRoundMono r.history) :
    histActiveUnique (r.update_or_add_history sn vs sm av ra).history ∧
    histRoundMono (r.update_or_add_history sn vs sm av ra).history := by
  have hhist : (r.update_or_add_history sn vs sm av ra).history =
      r.history.map (markSuperseded sn) ++
        [⟨sn, vs, sm, av, ra, r.history.foldl (roundNumStep sn) 1, false⟩] := rfl
  rw [hhist]
  constructor
  · rw [histActiveUnique, List.pairwise_append]
    refine ⟨?_, ?_, ?_⟩
    · refine List.Pairwise.map _ ?_ h1
      intro a b hab hname
      rw [markSuperseded_name, markSuperseded_name] at hname
      by_cases ha : (a.story_name == sn)
      · left
        exact markSuperseded_hit sn a (by rw [markSuperseded_name]; simpa using ha)
      · by_cases hb : (b.story_name == sn)
        · right
          exact markSuperseded_hit sn b (by rw [markSuperseded_name]; simpa using hb)
        · rcases hab hname with h | h
          · left
            rw [markSuperseded, if_neg ha]
            exact h
          · right
            rw [markSuperseded, if_neg hb]
            exact h
    · exact List.pairwise_singleton _ _
    · intro a ha b hb hname
      rw [List.mem_singleton] at hb
      subst hb
      rcases List.mem_map.mp ha with ⟨o, _, hoe⟩
      left
      rw [← hoe]
      exact markSuperseded_hit sn o (by rw [hoe]; exact hname)
  · rw [histRoundMono, List.pairwise_append]
    refine ⟨?_, ?_, ?_⟩
    · refine List.Pairwise.map _ ?_ h2
      intro a b hab hname
      rw [markSuperseded_name, markSuperseded_name] at hname
      rw [markSuperseded_round, markSuperseded_round]
      exact hab hname
    · exact List.pairwise_singleton _ _
    · intro a ha b hb hname
      rw [List.mem_singleton] at hb
      subst hb
      rcases List.mem_map.mp ha with ⟨o, ho, hoe⟩
      have hon : o.story_name = sn := by
        rw [← markSuperseded_name sn o, hoe]
        exact hname
      have := roundNum_foldl_ge sn r.history o ho hon 1
      rw [← hoe, markSuperseded_round]
      simp only []
      omega

theorem join_history (r : Room) (pn : String) (obs : Bool) (fid : String) :
    ((JoinRoomUseCase.execute r pn obs fid).2).history = r.history := by
  rw [JoinRoomUseCase.execute]
  split
  · rfl
  · split
    · rfl
    · split
      · rfl
      · split
        · rfl
        · rfl

theorem vote_history (r : Room) (pid : String) (vv : Option String) :
    ((VoteUseCase.execute r pid vv).2).history = r.history := by
  rw [VoteUseCase.execute.eq_def]
  split
  · rfl
  · split
    · rfl
    · split
      · rfl
      · rfl

theorem reveal_history (r : Room) (pid : String) :
    ((RevealVotesUseCase.execute r pid).2).history = r.history := by
  rw [RevealVotesUseCase.execute.eq_def]
  split
  · rfl
  · split
    · rfl
    · rfl

theorem toggle_history (r : Room) (pid : String) :
    ((ToggleVotingModeUseCase.execute r pid).2).history = r.history := by
  rw [ToggleVotingModeUseCase.execute.eq_def]
  split
  · rfl
  · split
    · rfl
    · rw [Room.toggle_voting_mode]
      split
      · rfl
      · rfl

theorem set_story_history (r : Room) (sn : String) :
    ((SetStoryNameUseCase.execute r sn).2).history = r.history := by
  rw [SetStoryNameUseCase.execute]
  split
  · rfl
  · rfl

theorem change_scale_history (r : Room) (pid sn : String) :
    ((ChangeScaleUseCase.execute r pid sn).2).history = r.history := by
  rw [ChangeScaleUseCase.execute.eq_def]
  split
  · rfl
  · split
    · rfl
    · rfl

theorem custom_scale_history (r : Room) (pid : String) (vs : List String) :
    ((ChangeScaleUseCase.execute_custom r pid vs).2).history = r.history := by
  rw [ChangeScaleUseCase.execute_custom.eq_def]
  split
  · rfl
  · split
    · rfl
    · split
      · rfl
      · show ((let clean_values := cleanValues vs;
          _ : Except UcError Unit × Room)).2.history = r.history
        simp only []
        split
        · rfl
        · rfl

theorem reset_history_cases (r : Room) :
    (r.reset_votes).history = r.history ∨
    ∃ sn vs sm av ra, (r.reset_votes).history =
      (r.update_or_add_history sn vs sm av ra).history := by
  by_cases hs : (r.story_name == "")
  · left
    simp only [Room.reset_votes, hs, Bool.not_true, Bool.false_eq_true, if_false]
  · have hs' : (r.story_name == "") = false := by simpa using hs
    by_cases hv : (collectedVotes r.players).isEmpty
    · left
      simp only [Room.reset_votes, hs', Bool.not_false, if_true, hv, Bool.not_true,
        Bool.false_eq_true, if_false]
    · have hv' : (collectedVotes r.players).isEmpty = false := by simpa using hv
      right
      refine ⟨r.story_name, collectedVotes r.players, collectedSummary r.players,
        (if !(numericVotesOf r.players).isEmpty then
          some (qDivNat (qSum (numericVotesOf r.players)) (numericVotesOf r.players).length)
        else none), ?_, ?_⟩
      · exact (match (if !(numericVotesOf r.players).isEmpty then
            some (qDivNat (qSum (numericVotesOf r.players))
              (numericVotesOf r.players).length)
          else none) with
          | some a => r.round_to_scale a
          | none => none)
      · simp only [Room.reset_votes, hs', Bool.not_false, if_true, hv', Bool.false_eq_true]

/-- Every action either leaves the history untouched or routes it
through `update_or_add_history`. -/
theorem apply_history_cases (a : Action) (r : Room) :
    (a.apply r).history = r.history ∨
    ∃ sn vs sm av ra, (a.apply r).history =
      (r.update_or_add_history sn vs sm av ra).history := by
  cases a with
  | join pn obs fid => exact Or.inl (join_history r pn obs fid)
  | vote pid vv => exact Or.inl (vote_history r pid vv)
  | reveal pid => exact Or.inl (reveal_history r pid)
  | reset pid =>
      rw [Action.apply, ResetVotesUseCase.execute.eq_def]
      split
      · exact Or.inl rfl
      · split
        · exact Or.inl rfl
        · exact reset_history_cases r
  | setStory sn => exact Or.inl (set_story_history r sn)
  | toggleMode pid => exact Or.inl (toggle_history r pid)
  | changeScale pid sn => exact Or.inl (change_scale_history r pid sn)
  | setCustomScale pid vs => exact Or.inl (custom_scale_history r pid vs)
  | connect pid => exact Or.inl rfl
  | disconnect pid => exact Or.inl rfl

/-- Claim C2: every reachable room satisfies both history invariants —
per item name at most one record is non-superseded, and round numbers
are non-decreasing per name in history order; moreover every archive
step appends exactly one non-superseded record whose round number is one
greater than the maximum prior round for that name (1 when there is no
prior record), marking all prior same-name records superseded. -/
theorem claim_C2 :
    (∀ r : Room, Reachable r → histActiveUnique r.history ∧ histRoundMono r.history) ∧
    (∀ (r : Room) (sn : String) (vs : List (String × String)) (sm : List (String × Nat))
      (av : Option ℚ) (ra : Option String),
      ∃ rec : StoryHistory,
        (r.update_or_add_history sn vs sm av ra).history =
          r.history.map (markSuperseded sn) ++ [rec] ∧
        rec.is_superseded = false ∧
        rec.story_name = sn ∧
        rec.round_number = maxRoundFor sn r.history + 1 ∧
        (∀ s ∈ r.history.map (markSuperseded sn), s.story_name = sn →
          s.is_superseded = true)) := by
  constructor
  · intro r h
    induction h with
    | create rid nm =>
        exact ⟨List.Pairwise.nil, List.Pairwise.nil⟩
    | @step r' a hr ih =>
        rcases apply_history_cases a r' with he | ⟨sn, vs, sm, av, ra, he⟩
        · rw [histActiveUnique, histRoundMono, he]
          exact ih
        · rw [histActiveUnique, histRoundMono, he]
          exact update_preserves_inv r' sn vs sm av ra ih.1 ih.2
  · intro r sn vs sm av ra
    refine ⟨⟨sn, vs, sm, av, ra, r.history.foldl (roundNumStep sn) 1, false⟩,
      rfl, rfl, rfl, ?_, ?_⟩
    · show r.history.foldl (roundNumStep sn) 1 = maxRoundFor sn r.history + 1
      have := roundNum_foldl_shift sn r.history 0
      rw [maxRoundFor]
      simpa using this
    · intro s hs hname
      rcases List.mem_map.mp hs with ⟨o, _, hoe⟩
      rw [← hoe]
      exact markSuperseded_hit sn o (by rw [hoe]; exact hname)

/-- `roomC1` reset once (archiving "US-1" round 1), then "US-1" is
re-estimated: story set again, Alice votes "3", and reset again. -/
def roomC2 : Room :=
  (Action.reset "p1").apply
    ((Action.vote "p1" (some "3")).apply
      ((Action.setStory "US-1").apply
        ((Action.reset "p1").apply roomC1)))

theorem reachable_roomC2 : Reachable roomC2 :=
  Reachable.step (.reset "p1")
    (Reachable.step (.vote "p1" (some "3"))
      (Reachable.step (.setStory "US-1")
        (Reachable.step (.reset "p1")
          (Reachable.step (.setStory "US-1")
            (Reachable.step (.vote "p2" (some "8"))
              (Reachable.step (.vote "p1" (some "5"))
                (Reachable.step (.join "Bob" false "p2")
                  (Reachable.step (.join "Alice" false "p1")
                    (Reachable.create "r1" "Sprint 1")))))))))

/-- Witness for C2 at a concrete reachable room: after archiving "US-1"
once and re-estimating it, the invariants hold and the second record has
round number 2. -/
theorem claim_C2_witness :
    (histActiveUnique roomC2.history ∧ histRoundMono roomC2.history) ∧
    roomC2.history.map (fun s => (s.story_name, s.round_number, s.is_superseded)) =
      [("US-1", 1, true), ("US-1", 2, false)] := by
  constructor
  · exact claim_C2.1 roomC2 reachable_roomC2
  · decide

/-! ## Claim C8: votes versus the current scale -/

/-- `roomAB` after Alice votes "100" (valid on modified_fibonacci) and
then changes the predefined scale to fibonacci, which has no "100". -/
def roomC8 : Room :=
  (Action.changeScale "p1" "fibonacci").apply
    ((Action.vote "p1" (some "100")).apply roomAB)

theorem reachable_roomC8 : Reachable roomC8 :=
  Reachable.step (.changeScale "p1" "fibonacci")
    (Reachable.step (.vote "p1" (some "100"))
      (Reachable.step (.join "Bob" false "p2")
        (Reachable.step (.join "Alice" false "p1")
          (Reachable.create "r1" "Sprint 1"))))

/-- Counterexample to C8 as stated: in the reachable room where Alice
voted "100" under modified_fibonacci and the facilitator then switched
to the fibonacci scale, her stored vote "100" is not a member of the new
current scale values, so the claimed invariant fails. -/
theorem claim_C8_counterexample :
    ¬ (∀ r : Room, Reachable r → ∀ p ∈ r.players,
        p.vote = none ∨ (p.vote.getD "") ∈ r.get_current_scale) := by
  intro hcl
  have hmem : (Player.mk "p1" "Alice" false true (some "100") true) ∈ roomC8.players := by
    decide
  have h2 := hcl roomC8 reachable_roomC8 _ hmem
  have h3 : ¬ ((Player.mk "p1" "Alice" false true (some "100") true).vote = none ∨
      ((Player.mk "p1" "Alice" false true (some "100") true).vote.getD "") ∈
        roomC8.get_current_scale) := by
    decide
  exact h3 h2

/-- Claim C8 (amended): votes are validated against the scale only at
cast time — every successful castVote leaves the voter's currentVote
empty or a member of the scale values current at the cast — while
changing the scale (predefined or custom) leaves every participant's
vote unchanged, so after a scale change a stored vote may fall outside
the new scale. -/
theorem claim_C8 :
    (∀ (r : Room) (pid : String) (vv res : Option String),
      (VoteUseCase.execute r pid vv).1 = .ok res →
      ∀ p ∈ (VoteUseCase.execute r pid vv).2.players, p.id = pid →
        p.vote = none ∨ (p.vote.getD "") ∈ r.get_current_scale) ∧
    (∀ (r : Room) (pid sn : String),
      ((ChangeScaleUseCase.execute r pid sn).2).players = r.players) ∧
    (∀ (r : Room) (pid : String) (vs : List String),
      ((ChangeScaleUseCase.execute_custom r pid vs).2).players = r.players) := by
  refine ⟨?_, ?_, ?_⟩
  · intro r pid vv res hok p hp hid
    have hset : ∀ (w : Option String), p ∈ (r.set_player_vote pid w).players →
        p.vote = w ∨ p ∈ r.players ∧ p.id ≠ pid := by
      intro w hpw
      rw [Room.set_player_vote] at hpw
      rcases List.mem_map.mp hpw with ⟨q, hq, hqe⟩
      by_cases hqid : (q.id == pid)
      · rw [if_pos hqid] at hqe
        left
        rw [← hqe]
      · rw [if_neg hqid] at hqe
        right
        subst hqe
        exact ⟨hq, by simpa using hqid⟩
    cases hgp : r.get_player pid with
    | none =>
        rw [VoteUseCase.execute.eq_def, hgp] at hok
        exact absurd hok (by simp)
    | some q =>
        cases vv with
        | none =>
            have hpl : (VoteUseCase.execute r pid none).2 = r.set_player_vote pid none := by
              rw [VoteUseCase.execute.eq_def, hgp]
            rw [hpl] at hp
            rcases hset none hp with hv | ⟨_, hne⟩
            · exact Or.inl hv
            · exact absurd hid hne
        | some v =>
            by_cases hiv : r.is_valid_vote v = true
            · have hpl : (VoteUseCase.execute r pid (some v)).2 =
                  r.set_player_vote pid (some v) := by
                rw [VoteUseCase.execute.eq_def, hgp]
                simp only [if_pos hiv]
              rw [hpl] at hp
              rcases hset (some v) hp with hv | ⟨_, hne⟩
              · right
                rw [hv]
                rw [Room.is_valid_vote, List.contains_eq_any_beq] at hiv
                simpa using hiv
              · exact absurd hid hne
            · rw [VoteUseCase.execute.eq_def, hgp] at hok
              simp only [if_neg hiv] at hok
              exact absurd hok (by simp)
  · intro r pid sn
    rw [ChangeScaleUseCase.execute.eq_def]
    split
    · rfl
    · split
      · rfl
      · rfl
  · intro r pid vs
    rw [ChangeScaleUseCase.execute_custom.eq_def]
    split
    · rfl
    · split
      · rfl
      · split
        · rfl
        · show ((let clean_values := cleanValues vs;
            _ : Except UcError Unit × Room)).2.players = r.players
          simp only []
          split
          · rfl
          · rfl

/-- Witness for C8 (amended): Alice's successful "100" vote is within
the scale current at cast time. -/
theorem claim_C8_witness :
    (Player.mk "p1" "Alice" false true (some "100") true).vote = none ∨
    ((Player.mk "p1" "Alice" false true (some "100") true).vote.getD "") ∈
      roomAB.get_current_scale := by
  exact claim_C8.1 roomAB "p1" (some "100") (some "100") (by rfl)
    (Player.mk "p1" "Alice" false true (some "100") true) (by decide) (by decide)

end Estimatapp
